import Mathlib

/-!
Verification of the bot-hosting admin panel backend (`backend/server.py`).

The backend keeps bot records in a document store and exposes lifecycle
operations (`start_bot`, `stop_bot`, `restart_bot`, `delete_bot`), a
reconciliation pass inside `get_bots` and the websocket tick, and a websocket
broadcast fan-out (`ConnectionManager.broadcast`).  The definitions below are a
shallow embedding of that code: the document store becomes an explicit `DB`
value threaded through the operations, timestamps become natural numbers
supplied as a `now` parameter, the process-stat sampler (`get_process_stats`,
a wrapper over psutil) becomes a function parameter `sampler : Nat → Option
ProcStats`, and the random pid source (`random.randint(1000, 9999)`) becomes a
`rand` parameter from which the code computes `1000 + rand % 9000`.  HTTP
exceptions become `Except` values carrying the `detail` string; mutations made
before a raise persist, so every operation returns the (possibly mutated)
database alongside the result, exactly as the mongo writes would persist in the
source.
-/

namespace BotHosting

/-- `BotStatus` enum from the source. -/
inductive BotStatus where
  | running
  | stopped
  | error
  | starting
  | stopping
deriving DecidableEq

/-- `BotType` enum from the source. -/
inductive BotType where
  | discord
  | telegram
  | webhook
  | general
deriving DecidableEq

/-- The `Bot` pydantic model.  Field defaults mirror the pydantic defaults
(`status = STOPPED`, `pid = None`, `working_directory = "/app"`, ...).
Datetimes are embedded as `Nat`; floats (cpu/memory percentages) as `Nat`,
and the `uptime` string as the `Option Nat` of seconds it renders. -/
structure Bot where
  id : String
  name : String
  description : String := ""
  bot_type : BotType
  status : BotStatus := BotStatus.stopped
  port : Option Nat := none
  command : String
  working_directory : String := "/app"
  environment_vars : List (String × String) := []
  pid : Option Nat := none
  created_at : Nat := 0
  last_started : Option Nat := none
  last_stopped : Option Nat := none
  cpu_usage : Nat := 0
  memory_usage : Nat := 0
  uptime : Option Nat := none
deriving DecidableEq

/-- The `LogEntry` model (the uuid `id` field is omitted; no code path reads
it).  `timestamp` is the `Nat`-embedded creation time. -/
structure LogEntry where
  bot_id : String
  timestamp : Nat
  level : String
  message : String
  source : String := "bot"
deriving DecidableEq

/-- Result of `get_process_stats(pid)` when the process exists. -/
structure ProcStats where
  cpu_usage : Nat
  memory_usage : Nat
  create_time : Nat
deriving DecidableEq

/-- The document store: the `bots` and `logs` collections. -/
structure DB where
  bots : List Bot
  logs : List LogEntry
deriving DecidableEq

/-! ## List primitives for the document-store and Python-list operations -/

/-- Mongo `update_one`: apply `f` to the first element satisfying `p`. -/
def updateFirst (p : α → Bool) (f : α → α) : List α → List α
  | [] => []
  | x :: xs => if p x then f x :: xs else x :: updateFirst p f xs

/-- Mongo `delete_one`: drop the first element satisfying `p`. -/
def removeFirstIf (p : α → Bool) : List α → List α
  | [] => []
  | x :: xs => if p x then xs else x :: removeFirstIf p xs

/-- Python `list.remove(a)`: drop the first occurrence of `a`. -/
def pyRemove [DecidableEq α] (a : α) : List α → List α
  | [] => []
  | x :: xs => if x = a then xs else x :: pyRemove a xs

/-- Lookup in an association list embedding a Python dict (first binding
wins; a well-formed dict has distinct keys). -/
def envLookup (k : String) : List (String × String) → Option String
  | [] => none
  | (k2, v) :: rest => if k2 = k then some v else envLookup k rest

/-- Python dict item assignment `d[k] = v`: replace the binding in place if
the key exists, otherwise append it. -/
def dictInsert (k v : String) : List (String × String) → List (String × String)
  | [] => [(k, v)]
  | (k2, v2) :: rest => if k2 = k then (k, v) :: rest else (k2, v2) :: dictInsert k v rest

/-- Python `base.update(upd)`: assign every binding of `upd` into `base`,
embedding `env = os.environ.copy(); env.update(bot.environment_vars)`. -/
def dictUpdate (base upd : List (String × String)) : List (String × String) :=
  upd.foldl (fun acc kv => dictInsert kv.1 kv.2 acc) base

/-- Does `needle` occur at the head of the character list? -/
def leadsWith : List Char → List Char → Bool
  | [], _ => true
  | _ :: _, [] => false
  | a :: as, b :: bs => a == b && leadsWith as bs

/-- Does `needle` occur anywhere in `hay`? -/
def hasSubList (needle : List Char) : List Char → Bool
  | [] => leadsWith needle []
  | c :: rest => leadsWith needle (c :: rest) || hasSubList needle rest

/-- Python `needle in hay` on strings, used by `restart_bot` for the
`"not running" in str(e.detail)` check. -/
def strContains (hay needle : String) : Bool :=
  hasSubList needle.toList hay.toList

/-! ## Utility functions from the source -/

/-- `get_bot_by_id`: `db.bots.find_one({"id": bot_id})`. -/
def get_bot_by_id (db : DB) (bot_id : String) : Option Bot :=
  db.bots.find? (fun b => decide (b.id = bot_id))

/-- The `$set` document built by `update_bot_status` applied to one record:
status always; pid when a pid argument was passed; `last_started` on RUNNING;
`last_stopped` plus `pid = None` on STOPPED. -/
def applyStatusUpdate (now : Nat) (status : BotStatus) (pd : Option Nat) (b : Bot) : Bot :=
  let b1 := { b with status := status }
  let b2 := match pd with
    | some p => { b1 with pid := some p }
    | none => b1
  if status = BotStatus.running then { b2 with last_started := some now }
  else if status = BotStatus.stopped then { b2 with last_stopped := some now, pid := none }
  else b2

/-- `update_bot_status`: `db.bots.update_one({"id": bot_id}, {"$set": ...})`. -/
def update_bot_status (now : Nat) (db : DB) (bot_id : String) (status : BotStatus)
    (pd : Option Nat) : DB :=
  { db with bots :=
      updateFirst (fun b => decide (b.id = bot_id)) (applyStatusUpdate now status pd) db.bots }

/-- `log_message`: build a `LogEntry` and `db.logs.insert_one` it.  The
follow-up websocket broadcast never touches the store and swallows its own
failures, so it has no effect here. -/
def log_message (now : Nat) (db : DB) (bot_id level message source : String) : DB :=
  { db with logs :=
      db.logs ++ [{ bot_id := bot_id, timestamp := now, level := level,
                    message := message, source := source }] }

/-- Message of the first `start_bot` log. -/
def startingMsg (name : String) : String :=
  "Starting bot '" ++ name ++ "'"

/-- Message of the second `start_bot` log. -/
def startedMsg (name : String) (pid : Nat) : String :=
  "Bot '" ++ name ++ "' started successfully with PID " ++ toString pid

/-- Message of the first `stop_bot` log. -/
def stoppingMsg (name : String) : String :=
  "Stopping bot '" ++ name ++ "'"

/-- Message of the second `stop_bot` log. -/
def stoppedMsg (name : String) : String :=
  "Bot '" ++ name ++ "' stopped successfully"

/-- Message of the `delete_bot` log. -/
def deletedMsg (name : String) : String :=
  "Bot '" ++ name ++ "' deleted"

/-! ## Lifecycle endpoints -/

/-- `POST /bots/{bot_id}/start`.  `osEnv` embeds `os.environ`, `rand` the
value drawn by `random.randint` (the code computes `1000 + rand % 9000`,
the inclusive range 1000..9999), `now` the current time.  The merged
environment `env` is computed exactly as in the source and, exactly as in
the source, never used afterwards: no process is spawned. -/
def start_bot (osEnv : List (String × String)) (rand now : Nat) (db : DB)
    (bot_id : String) : DB × Except String Nat :=
  match get_bot_by_id db bot_id with
  | none => (db, Except.error "Bot not found")
  | some bot =>
    if bot.status = BotStatus.running then (db, Except.error "Bot is already running")
    else
      let db1 := update_bot_status now db bot_id BotStatus.starting none
      let db2 := log_message now db1 bot_id "INFO" (startingMsg bot.name) "api"
      let env := dictUpdate osEnv bot.environment_vars
      let fake_pid := 1000 + rand % 9000
      let db3 := update_bot_status now db2 bot_id BotStatus.running (some fake_pid)
      let db4 := log_message now db3 bot_id "INFO" (startedMsg bot.name fake_pid) "system"
      (db4, Except.ok fake_pid)

/-- `POST /bots/{bot_id}/stop`.  The `if bot.pid: pass` block of the source
is a no-op and contributes nothing. -/
def stop_bot (now : Nat) (db : DB) (bot_id : String) : DB × Except String Unit :=
  match get_bot_by_id db bot_id with
  | none => (db, Except.error "Bot not found")
  | some bot =>
    if bot.status ≠ BotStatus.running then (db, Except.error "Bot is not running")
    else
      let db1 := update_bot_status now db bot_id BotStatus.stopping none
      let db2 := log_message now db1 bot_id "INFO" (stoppingMsg bot.name) "api"
      let db3 := update_bot_status now db2 bot_id BotStatus.stopped none
      let db4 := log_message now db3 bot_id "INFO" (stoppedMsg bot.name) "system"
      (db4, Except.ok ())

/-- `POST /bots/{bot_id}/restart`: `try: stop; sleep(1); return start except
HTTPException as e: if "not running" in str(e.detail): return start else
raise`.  The try block spans both calls, so an error from either is matched
against the substring; database mutations made before a raise persist. -/
def restart_bot (osEnv : List (String × String)) (rand now : Nat) (db : DB)
    (bot_id : String) : DB × Except String Nat :=
  match stop_bot now db bot_id with
  | (db1, Except.ok _) =>
    match start_bot osEnv rand now db1 bot_id with
    | (db2, Except.ok pid) => (db2, Except.ok pid)
    | (db2, Except.error e) =>
      if strContains e "not running" then start_bot osEnv rand now db2 bot_id
      else (db2, Except.error e)
  | (db1, Except.error e) =>
    if strContains e "not running" then start_bot osEnv rand now db1 bot_id
    else (db1, Except.error e)

/-- `DELETE /bots/{bot_id}`: stop if running, `bots.delete_one`,
`logs.delete_many({"bot_id": bot_id})`, then one deletion log. -/
def delete_bot (now : Nat) (db : DB) (bot_id : String) : DB × Except String String :=
  match get_bot_by_id db bot_id with
  | none => (db, Except.error "Bot not found")
  | some bot =>
    match (if bot.status = BotStatus.running then stop_bot now db bot_id
           else (db, Except.ok ())) with
    | (db1, Except.error e) => (db1, Except.error e)
    | (db1, Except.ok _) =>
      let db2 := { db1 with bots := removeFirstIf (fun b => decide (b.id = bot_id)) db1.bots }
      let db3 := { db2 with logs := db2.logs.filter (fun e => !(decide (e.bot_id = bot_id))) }
      let db4 := log_message now db3 bot_id "INFO" (deletedMsg bot.name) "api"
      (db4, Except.ok "Bot deleted successfully")

/-! ## Reconciliation passes -/

/-- In-memory refresh of a running bot from a successful sample (the loop
body assignments to `cpu_usage`, `memory_usage`, `uptime`). -/
def refreshStats (now : Nat) (st : ProcStats) (b : Bot) : Bot :=
  { b with cpu_usage := st.cpu_usage, memory_usage := st.memory_usage,
           uptime := some (now - st.create_time) }

/-- Loop body of `GET /bots`: for each snapshot record, if status is RUNNING
and the pid is truthy (`if bot.status == BotStatus.RUNNING and bot.pid:`),
sample it; on a missing process, persist STOPPED (which also clears the pid)
and flip the in-memory copy; the returned list keeps every record. -/
def reconcileList (sampler : Nat → Option ProcStats) (now : Nat) (db : DB) :
    List Bot → DB × List Bot
  | [] => (db, [])
  | bot :: rest =>
    match bot.pid with
    | some p =>
      if bot.status = BotStatus.running ∧ p ≠ 0 then
        match sampler p with
        | some st =>
          let r := reconcileList sampler now db rest
          (r.1, refreshStats now st bot :: r.2)
        | none =>
          let db1 := update_bot_status now db bot.id BotStatus.stopped none
          let r := reconcileList sampler now db1 rest
          (r.1, { bot with status := BotStatus.stopped } :: r.2)
      else
        let r := reconcileList sampler now db rest
        (r.1, bot :: r.2)
    | none =>
      let r := reconcileList sampler now db rest
      (r.1, bot :: r.2)

/-- `GET /bots`: snapshot `db.bots.find().to_list(1000)` then the loop. -/
def get_bots (sampler : Nat → Option ProcStats) (now : Nat) (db : DB) :
    DB × List Bot :=
  reconcileList sampler now db (db.bots.take 1000)

/-- Loop body of the websocket tick: iterates only records fetched with
`{"status": "running"}`; a record with a truthy pid whose sample is missing
is persisted STOPPED and skipped (`continue`), others are collected. -/
def wsReconcileList (sampler : Nat → Option ProcStats) (now : Nat) (db : DB) :
    List Bot → DB × List Bot
  | [] => (db, [])
  | bot :: rest =>
    match bot.pid with
    | some p =>
      if p ≠ 0 then
        match sampler p with
        | some st =>
          let r := wsReconcileList sampler now db rest
          (r.1, refreshStats now st bot :: r.2)
        | none =>
          let db1 := update_bot_status now db bot.id BotStatus.stopped none
          let r := wsReconcileList sampler now db1 rest
          (r.1, r.2)
      else
        let r := wsReconcileList sampler now db rest
        (r.1, bot :: r.2)
    | none =>
      let r := wsReconcileList sampler now db rest
      (r.1, bot :: r.2)

/-- One iteration of the `websocket_endpoint` update loop (the part that
touches the store): `db.bots.find({"status": "running"}).to_list(100)` then
the reconciliation body. -/
def ws_tick (sampler : Nat → Option ProcStats) (now : Nat) (db : DB) :
    DB × List Bot :=
  wsReconcileList sampler now db
    ((db.bots.filter (fun b => decide (b.status = BotStatus.running))).take 100)

/-! ## Lifecycle operation sequences (for the registry/pid invariant) -/

/-- One API-level lifecycle operation, as in the claim: start, stop, restart,
or a status-reconciliation pass. -/
inductive LifeOp where
  | lifeStart (osEnv : List (String × String)) (rand now : Nat) (id : String)
  | lifeStop (now : Nat) (id : String)
  | lifeRestart (osEnv : List (String × String)) (rand now : Nat) (id : String)
  | lifeReconcile (sampler : Nat → Option ProcStats) (now : Nat)

/-- Database effect of one lifecycle operation. -/
def runOp (db : DB) : LifeOp → DB
  | LifeOp.lifeStart osEnv r n i => (start_bot osEnv r n db i).1
  | LifeOp.lifeStop n i => (stop_bot n db i).1
  | LifeOp.lifeRestart osEnv r n i => (restart_bot osEnv r n db i).1
  | LifeOp.lifeReconcile s n => (get_bots s n db).1

/-- Database effect of a sequence of lifecycle operations. -/
def runOps (db : DB) (ops : List LifeOp) : DB :=
  ops.foldl runOp db

/-- The pid/status linkage claimed invariant over a store: a record holds a
pid exactly when its status is Running or Stopping. -/
def PidStatusInv (db : DB) : Prop :=
  ∀ b ∈ db.bots,
    (b.pid ≠ none ↔ (b.status = BotStatus.running ∨ b.status = BotStatus.stopping))

instance : DecidablePred PidStatusInv := fun db =>
  inferInstanceAs (Decidable (∀ b ∈ db.bots, _))

/-! ## Websocket broadcast (`ConnectionManager.broadcast`) -/

/-- Removing a present element shortens the list by exactly one. -/
theorem pyRemove_length_of_mem [DecidableEq α] {a : α} {l : List α}
    (hm : a ∈ l) : (pyRemove a l).length + 1 = l.length := by
  induction l with
  | nil => cases hm
  | cons x xs ih =>
    by_cases hx : x = a
    · simp [pyRemove, hx]
    · rcases List.mem_cons.mp hm with h | h
      · exact absurd h.symm hx
      · simp only [pyRemove, if_neg hx, List.length_cons]
        rw [← ih h]

/-- The broadcast loop with Python `for` semantics: an iterator index over a
list that the body mutates.  `send` may fail; the bare `except:` catches the
failure and calls `active_connections.remove(connection)`, which removes the
first occurrence and thereby shifts the iterator past the next element.
Returns the final connection list and the list of connections a send was
attempted on, or propagates an uncaught error (the point of claim C8 is that
none escapes).  Structured over a fuel counter for structural recursion; each
iteration either raises the index or shrinks the list, so `fuel = l.length`
(what `broadcast` passes) always reaches the iterator-exhausted exit, and
`broadcastGo_fuel_irrelevant` shows any adequate fuel computes the same
result. -/
def broadcastGo [DecidableEq α] (send : α → Except Unit Unit) :
    Nat → List α → Nat → Except Unit (List α × List α)
  | 0, l, _ => Except.ok (l, [])
  | fuel + 1, l, i =>
    if h : i < l.length then
      match send (l.get ⟨i, h⟩) with
      | Except.ok _ =>
        match broadcastGo send fuel l (i + 1) with
        | Except.ok r => Except.ok (r.1, l.get ⟨i, h⟩ :: r.2)
        | Except.error e => Except.error e
      | Except.error _ =>
        match broadcastGo send fuel (pyRemove (l.get ⟨i, h⟩) l) (i + 1) with
        | Except.ok r => Except.ok (r.1, l.get ⟨i, h⟩ :: r.2)
        | Except.error e => Except.error e
    else Except.ok (l, [])

/-- `ConnectionManager.broadcast`: run the loop from index 0 with adequate
fuel. -/
def broadcast [DecidableEq α] (send : α → Except Unit Unit) (l : List α) :
    Except Unit (List α × List α) :=
  broadcastGo send l.length l 0

/-! ## Generic lemmas about the store primitives -/

/-- `updateFirst` preserves any projection `g` that `f` preserves. -/
theorem map_updateFirst {α β : Type} (g : α → β) (p : α → Bool) (f : α → α)
    (hf : ∀ x, g (f x) = g x) (l : List α) :
    (updateFirst p f l).map g = l.map g := by
  induction l with
  | nil => rfl
  | cons x xs ih =>
    by_cases hx : p x
    · simp [updateFirst, hx, hf]
    · simp [updateFirst, hx, ih]

/-- Searching with `q` is unaffected by an `updateFirst` keyed on `p` when no
`p`-element can match `q` and `f` preserves the `q`-value. -/
theorem find?_updateFirst_other (p q : α → Bool) (f : α → α)
    (hpres : ∀ x, q (f x) = q x) (hpf : ∀ x, p x = true → q x = false) :
    ∀ l : List α, (updateFirst p f l).find? q = l.find? q := by
  intro l
  induction l with
  | nil => rfl
  | cons x xs ih =>
    by_cases hx : p x
    · have hqx : q x = false := hpf x hx
      have hqfx : q (f x) = false := by rw [hpres, hqx]
      simp [updateFirst, hx, List.find?, hqx, hqfx]
    · by_cases hq : q x
      · simp [updateFirst, hx, List.find?, hq]
      · simp only [updateFirst, if_neg hx, List.find?]
        simp only [eq_false_of_ne_true hq, ih]

/-- The first `p`-element after `updateFirst p f` is `f` of the original
first `p`-element, when `f` preserves `p`. -/
theorem find?_updateFirst_self (p : α → Bool) (f : α → α)
    (hpres : ∀ x, p (f x) = p x) :
    ∀ {l : List α} {c}, l.find? p = some c →
      (updateFirst p f l).find? p = some (f c) := by
  intro l
  induction l with
  | nil => intro c h; cases h
  | cons x xs ih =>
    intro c h
    by_cases hx : p x
    · have : x = c := by
        have := h
        rw [List.find?] at this
        rw [hx] at this
        exact Option.some.inj this
      subst this
      have hfx : p (f x) = true := by rw [hpres]; exact hx
      simp [updateFirst, hx, List.find?, hfx]
    · have hxf : p x = false := eq_false_of_ne_true hx
      have htail : xs.find? p = some c := by
        rw [List.find?] at h; rw [hxf] at h; exact h
      simp only [updateFirst, if_neg hx, List.find?, hxf]
      exact ih htail

/-- Two successive `updateFirst` with the same key collapse to one, when the
first update preserves the key. -/
theorem updateFirst_updateFirst (p : α → Bool) (f g : α → α)
    (hpres : ∀ x, p (f x) = p x) :
    ∀ l : List α, updateFirst p g (updateFirst p f l) =
      updateFirst p (fun x => g (f x)) l := by
  intro l
  induction l with
  | nil => rfl
  | cons x xs ih =>
    by_cases hx : p x
    · have hfx : p (f x) = true := by rw [hpres]; exact hx
      simp [updateFirst, hx, hfx]
    · simp [updateFirst, hx, ih]

/-- Every element after an `updateFirst` is an old element or the image of an
old element. -/
theorem mem_updateFirst {p : α → Bool} {f : α → α} :
    ∀ {l : List α} {b}, b ∈ updateFirst p f l → b ∈ l ∨ ∃ c, c ∈ l ∧ b = f c := by
  intro l
  induction l with
  | nil => intro b h; cases h
  | cons x xs ih =>
    intro b h
    by_cases hx : p x
    · rw [updateFirst, if_pos hx] at h
      rcases List.mem_cons.mp h with h | h
      · exact Or.inr ⟨x, List.mem_cons_self x xs, h⟩
      · exact Or.inl (List.mem_cons_of_mem x h)
    · rw [updateFirst, if_neg hx] at h
      rcases List.mem_cons.mp h with h | h
      · exact Or.inl (h ▸ List.mem_cons_self x xs)
      · rcases ih h with h | ⟨c, hc, hbc⟩
        · exact Or.inl (List.mem_cons_of_mem x h)
        · exact Or.inr ⟨c, List.mem_cons_of_mem x hc, hbc⟩

/-- A list whose length fits under the cap is unchanged by `take`. -/
theorem take_of_le {α : Type} : ∀ (l : List α) (n : Nat), l.length ≤ n → l.take n = l := by
  intro l
  induction l with
  | nil => intro n _; simp
  | cons x xs ih =>
    intro n hn
    cases n with
    | zero => simp at hn
    | succ m =>
      simp only [List.take]
      rw [ih m (by simpa using hn)]

/-- Decompose a list at the element `find?` locates. -/
theorem find?_decomp {p : α → Bool} :
    ∀ {l : List α} {b}, l.find? p = some b →
      ∃ l₁ l₂, l = l₁ ++ b :: l₂ ∧ ∀ x ∈ l₁, p x = false := by
  intro l
  induction l with
  | nil => intro b h; cases h
  | cons x xs ih =>
    intro b h
    by_cases hx : p x
    · have hxb : x = b := by
        rw [List.find?] at h; rw [hx] at h; exact Option.some.inj h
      exact ⟨[], xs, by simp [hxb], by intro y hy; cases hy⟩
    · have hxf : p x = false := eq_false_of_ne_true hx
      rw [List.find?] at h; rw [hxf] at h
      rcases ih h with ⟨l₁, l₂, hl, hl₁⟩
      refine ⟨x :: l₁, l₂, by simp [hl], ?_⟩
      intro y hy
      rcases List.mem_cons.mp hy with hy | hy
      · exact hy ▸ hxf
      · exact hl₁ y hy

/-! ## Field-preservation facts for the status-update document -/

/-- `update_bot_status` never changes a record's id. -/
theorem applyStatusUpdate_id (now : Nat) (status : BotStatus) (pd : Option Nat)
    (b : Bot) : (applyStatusUpdate now status pd b).id = b.id := by
  unfold applyStatusUpdate
  cases pd <;> dsimp only <;> split <;> first | rfl | (split <;> rfl)

/-- `update_bot_status` leaves the logs collection untouched. -/
theorem update_bot_status_logs (now : Nat) (db : DB) (bot_id : String)
    (status : BotStatus) (pd : Option Nat) :
    (update_bot_status now db bot_id status pd).logs = db.logs := rfl

/-- `log_message` leaves the bots collection untouched. -/
theorem log_message_bots (now : Nat) (db : DB) (bot_id level message source : String) :
    (log_message now db bot_id level message source).bots = db.bots := rfl

/-! ## Shapes of the lifecycle endpoints -/

/-- `start_bot` on an unknown id: 404, store untouched. -/
theorem start_bot_notfound {db : DB} {bot_id : String}
    (h : get_bot_by_id db bot_id = none) (osEnv : List (String × String))
    (rand now : Nat) :
    start_bot osEnv rand now db bot_id = (db, Except.error "Bot not found") := by
  unfold start_bot
  rw [h]

/-- `start_bot` on a RUNNING record: 400, store untouched. -/
theorem start_bot_already {db : DB} {bot_id : String} {b : Bot}
    (hf : get_bot_by_id db bot_id = some b) (hs : b.status = BotStatus.running)
    (osEnv : List (String × String)) (rand now : Nat) :
    start_bot osEnv rand now db bot_id = (db, Except.error "Bot is already running") := by
  unfold start_bot
  rw [hf]
  exact if_pos hs

/-- `start_bot` on a known record in any non-RUNNING status: the exact
sequence of store writes and the simulated pid. -/
theorem start_bot_ok {db : DB} {bot_id : String} {b : Bot}
    (hf : get_bot_by_id db bot_id = some b) (hs : b.status ≠ BotStatus.running)
    (osEnv : List (String × String)) (rand now : Nat) :
    start_bot osEnv rand now db bot_id =
      (log_message now
        (update_bot_status now
          (log_message now (update_bot_status now db bot_id BotStatus.starting none)
            bot_id "INFO" (startingMsg b.name) "api")
          bot_id BotStatus.running (some (1000 + rand % 9000)))
        bot_id "INFO" (startedMsg b.name (1000 + rand % 9000)) "system",
       Except.ok (1000 + rand % 9000)) := by
  unfold start_bot
  rw [hf]
  exact if_neg hs

/-- `stop_bot` on an unknown id: 404, store untouched. -/
theorem stop_bot_notfound {db : DB} {bot_id : String}
    (h : get_bot_by_id db bot_id = none) (now : Nat) :
    stop_bot now db bot_id = (db, Except.error "Bot not found") := by
  unfold stop_bot
  rw [h]

/-- `stop_bot` on a known record that is not RUNNING: 400, store untouched. -/
theorem stop_bot_notrunning {db : DB} {bot_id : String} {b : Bot}
    (hf : get_bot_by_id db bot_id = some b) (hs : b.status ≠ BotStatus.running)
    (now : Nat) :
    stop_bot now db bot_id = (db, Except.error "Bot is not running") := by
  unfold stop_bot
  rw [hf]
  exact if_pos hs

/-- `stop_bot` on a RUNNING record: the exact sequence of store writes. -/
theorem stop_bot_ok {db : DB} {bot_id : String} {b : Bot}
    (hf : get_bot_by_id db bot_id = some b) (hs : b.status = BotStatus.running)
    (now : Nat) :
    stop_bot now db bot_id =
      (log_message now
        (update_bot_status now
          (log_message now (update_bot_status now db bot_id BotStatus.stopping none)
            bot_id "INFO" (stoppingMsg b.name) "api")
          bot_id BotStatus.stopped none)
        bot_id "INFO" (stoppedMsg b.name) "system",
       Except.ok ()) := by
  unfold stop_bot
  rw [hf]
  exact if_neg (by simp [hs])

/-- Unfolding of the bots collection after `update_bot_status`. -/
theorem update_bot_status_bots (now : Nat) (db : DB) (bot_id : String)
    (status : BotStatus) (pd : Option Nat) :
    (update_bot_status now db bot_id status pd).bots =
      updateFirst (fun b => decide (b.id = bot_id))
        (applyStatusUpdate now status pd) db.bots := rfl

/-- The id-keyed search predicate is preserved by any status update. -/
theorem idKey_applyStatusUpdate (bot_id : String) (now : Nat) (status : BotStatus)
    (pd : Option Nat) (x : Bot) :
    decide ((applyStatusUpdate now status pd x).id = bot_id) =
      decide (x.id = bot_id) := by
  rw [applyStatusUpdate_id]

/-- Record shape after a successful `start_bot`: the first id-match becomes
the composite of the STARTING and RUNNING updates. -/
theorem get_after_start {db : DB} {bot_id : String} {b : Bot}
    (hf : get_bot_by_id db bot_id = some b) (hs : b.status ≠ BotStatus.running)
    (osEnv : List (String × String)) (rand now : Nat) :
    get_bot_by_id (start_bot osEnv rand now db bot_id).1 bot_id =
      some (applyStatusUpdate now BotStatus.running (some (1000 + rand % 9000))
        (applyStatusUpdate now BotStatus.starting none b)) := by
  rw [start_bot_ok hf hs]
  unfold get_bot_by_id
  rw [log_message_bots, update_bot_status_bots, log_message_bots,
    update_bot_status_bots,
    updateFirst_updateFirst _ _ _ (idKey_applyStatusUpdate bot_id now BotStatus.starting none)]
  exact find?_updateFirst_self _ _ (idKey_applyStatusUpdate bot_id now BotStatus.starting none) hf

/-- Record shape after a successful `stop_bot`: the first id-match becomes
the composite of the STOPPING and STOPPED updates. -/
theorem get_after_stop {db : DB} {bot_id : String} {b : Bot}
    (hf : get_bot_by_id db bot_id = some b) (hs : b.status = BotStatus.running)
    (now : Nat) :
    get_bot_by_id (stop_bot now db bot_id).1 bot_id =
      some (applyStatusUpdate now BotStatus.stopped none
        (applyStatusUpdate now BotStatus.stopping none b)) := by
  rw [stop_bot_ok hf hs]
  unfold get_bot_by_id
  rw [log_message_bots, update_bot_status_bots, log_message_bots,
    update_bot_status_bots,
    updateFirst_updateFirst _ _ _ (idKey_applyStatusUpdate bot_id now BotStatus.stopping none)]
  exact find?_updateFirst_self _ _ (idKey_applyStatusUpdate bot_id now BotStatus.stopping none) hf

/-! ## Preservation of the pid/status invariant by every lifecycle operation -/

/-- A STOPPED status write always leaves a record satisfying the linkage. -/
theorem update_stopped_pres (n : Nat) (id : String) (db : DB)
    (h : PidStatusInv db) :
    PidStatusInv (update_bot_status n db id BotStatus.stopped none) := by
  intro x hx
  rw [update_bot_status_bots] at hx
  rcases mem_updateFirst hx with hx | ⟨c, _, rfl⟩
  · exact h x hx
  · simp [applyStatusUpdate]

/-- `start_bot` preserves the pid/status linkage. -/
theorem start_bot_pres (osEnv : List (String × String)) (rand now : Nat)
    (db : DB) (bot_id : String) (h : PidStatusInv db) :
    PidStatusInv (start_bot osEnv rand now db bot_id).1 := by
  cases hf : get_bot_by_id db bot_id with
  | none => rw [start_bot_notfound hf]; exact h
  | some b =>
    by_cases hs : b.status = BotStatus.running
    · rw [start_bot_already hf hs]; exact h
    · rw [start_bot_ok hf hs]
      intro x hx
      simp only [log_message_bots, update_bot_status_bots] at hx
      rw [updateFirst_updateFirst _ _ _
        (idKey_applyStatusUpdate bot_id now BotStatus.starting none)] at hx
      rcases mem_updateFirst hx with hx | ⟨c, _, rfl⟩
      · exact h x hx
      · simp [applyStatusUpdate]

/-- `stop_bot` preserves the pid/status linkage. -/
theorem stop_bot_pres (now : Nat) (db : DB) (bot_id : String)
    (h : PidStatusInv db) : PidStatusInv (stop_bot now db bot_id).1 := by
  cases hf : get_bot_by_id db bot_id with
  | none => rw [stop_bot_notfound hf]; exact h
  | some b =>
    by_cases hs : b.status = BotStatus.running
    · rw [stop_bot_ok hf hs]
      intro x hx
      simp only [log_message_bots, update_bot_status_bots] at hx
      rw [updateFirst_updateFirst _ _ _
        (idKey_applyStatusUpdate bot_id now BotStatus.stopping none)] at hx
      rcases mem_updateFirst hx with hx | ⟨c, _, rfl⟩
      · exact h x hx
      · simp [applyStatusUpdate]
    · rw [stop_bot_notrunning hf hs]; exact h

/-- `restart_bot` preserves the pid/status linkage. -/
theorem restart_bot_pres (osEnv : List (String × String)) (rand now : Nat)
    (db : DB) (bot_id : String) (h : PidStatusInv db) :
    PidStatusInv (restart_bot osEnv rand now db bot_id).1 := by
  have hstop : PidStatusInv (stop_bot now db bot_id).1 := stop_bot_pres now db bot_id h
  unfold restart_bot
  rcases hsb : stop_bot now db bot_id with ⟨db1, res⟩
  have hdb1 : PidStatusInv db1 := by rw [hsb] at hstop; exact hstop
  cases res with
  | ok u =>
    dsimp only
    have hstart : PidStatusInv (start_bot osEnv rand now db1 bot_id).1 :=
      start_bot_pres osEnv rand now db1 bot_id hdb1
    rcases hst : start_bot osEnv rand now db1 bot_id with ⟨db2, res2⟩
    have hdb2 : PidStatusInv db2 := by rw [hst] at hstart; exact hstart
    cases res2 with
    | ok pid => exact hdb2
    | error e =>
      dsimp only
      by_cases hc : strContains e "not running" = true
      · rw [if_pos hc]
        exact start_bot_pres osEnv rand now db2 bot_id hdb2
      · rw [if_neg hc]
        exact hdb2
  | error e =>
    dsimp only
    by_cases hc : strContains e "not running" = true
    · rw [if_pos hc]
      exact start_bot_pres osEnv rand now db1 bot_id hdb1
    · rw [if_neg hc]
      exact hdb1

/-- The reconciliation loop body preserves the pid/status linkage for any
snapshot list. -/
theorem reconcileList_pres (s : Nat → Option ProcStats) (n : Nat) :
    ∀ (l : List Bot) (db : DB), PidStatusInv db →
      PidStatusInv (reconcileList s n db l).1 := by
  intro l
  induction l with
  | nil => intro db h; exact h
  | cons bot rest ih =>
    intro db h
    cases hp : bot.pid with
    | none => simp only [reconcileList, hp]; exact ih db h
    | some p =>
      simp only [reconcileList, hp]
      by_cases hg : bot.status = BotStatus.running ∧ p ≠ 0
      · rw [if_pos hg]
        cases hsm : s p with
        | some st => exact ih db h
        | none => exact ih _ (update_stopped_pres n bot.id db h)
      · rw [if_neg hg]
        exact ih db h

/-- `get_bots` (the reconciliation pass) preserves the pid/status linkage. -/
theorem get_bots_pres (s : Nat → Option ProcStats) (n : Nat) (db : DB)
    (h : PidStatusInv db) : PidStatusInv (get_bots s n db).1 :=
  reconcileList_pres s n (db.bots.take 1000) db h

/-- Every single lifecycle operation preserves the pid/status linkage. -/
theorem runOp_pres (db : DB) (op : LifeOp) (h : PidStatusInv db) :
    PidStatusInv (runOp db op) := by
  cases op with
  | lifeStart osEnv r n i => exact start_bot_pres osEnv r n db i h
  | lifeStop n i => exact stop_bot_pres n db i h
  | lifeRestart osEnv r n i => exact restart_bot_pres osEnv r n db i h
  | lifeReconcile s n => exact get_bots_pres s n db h

/-- Every sequence of lifecycle operations preserves the pid/status linkage. -/
theorem runOps_pres : ∀ (ops : List LifeOp) (db : DB), PidStatusInv db →
    PidStatusInv (runOps db ops) := by
  intro ops
  induction ops with
  | nil => intro db h; exact h
  | cons op rest ih =>
    intro db h
    exact ih (runOp db op) (runOp_pres db op h)

/-! ## Reconciliation-pass effects on a single record -/

/-- The reconciliation loop never writes a log entry. -/
theorem reconcileList_logs (s : Nat → Option ProcStats) (n : Nat) :
    ∀ (l : List Bot) (db : DB), (reconcileList s n db l).1.logs = db.logs := by
  intro l
  induction l with
  | nil => intro db; rfl
  | cons bot rest ih =>
    intro db
    cases hp : bot.pid with
    | none => simp only [reconcileList, hp]; exact ih db
    | some p =>
      simp only [reconcileList, hp]
      by_cases hg : bot.status = BotStatus.running ∧ p ≠ 0
      · rw [if_pos hg]
        cases hsm : s p with
        | some st => exact ih db
        | none => rw [ih]; rfl
      · rw [if_neg hg]; exact ih db

/-- The websocket loop never writes a log entry. -/
theorem wsReconcileList_logs (s : Nat → Option ProcStats) (n : Nat) :
    ∀ (l : List Bot) (db : DB), (wsReconcileList s n db l).1.logs = db.logs := by
  intro l
  induction l with
  | nil => intro db; rfl
  | cons bot rest ih =>
    intro db
    cases hp : bot.pid with
    | none => simp only [wsReconcileList, hp]; exact ih db
    | some p =>
      simp only [wsReconcileList, hp]
      by_cases hg : p ≠ 0
      · rw [if_pos hg]
        cases hsm : s p with
        | some st => exact ih db
        | none => rw [ih]; rfl
      · rw [if_neg hg]; exact ih db

/-- A status write keyed on a different id does not move the record `find?`
locates for `tid`. -/
theorem get_update_other {db : DB} {kid tid : String} (hne : decide (kid = tid) = false)
    (n : Nat) (st : BotStatus) (pd : Option Nat) :
    get_bot_by_id (update_bot_status n db kid st pd) tid = get_bot_by_id db tid := by
  unfold get_bot_by_id
  rw [update_bot_status_bots]
  refine find?_updateFirst_other _ _ _ (idKey_applyStatusUpdate tid n st pd) ?_ db.bots
  intro x hx
  have hxk : x.id = kid := of_decide_eq_true hx
  have : ¬(kid = tid) := of_decide_eq_false hne
  simp [hxk, this]

/-- Iterating the reconciliation loop over records whose ids all differ from
`tid` leaves the record for `tid` unchanged. -/
theorem reconcileList_find_other (s : Nat → Option ProcStats) (n : Nat) (tid : String) :
    ∀ (l : List Bot) (db : DB), (∀ x ∈ l, decide (x.id = tid) = false) →
      get_bot_by_id (reconcileList s n db l).1 tid = get_bot_by_id db tid := by
  intro l
  induction l with
  | nil => intro db _; rfl
  | cons bot rest ih =>
    intro db hl
    have hbot := hl bot (List.mem_cons_self bot rest)
    have hrest : ∀ x ∈ rest, decide (x.id = tid) = false := fun x hx =>
      hl x (List.mem_cons_of_mem bot hx)
    cases hp : bot.pid with
    | none => simp only [reconcileList, hp]; exact ih db hrest
    | some p =>
      simp only [reconcileList, hp]
      by_cases hg : bot.status = BotStatus.running ∧ p ≠ 0
      · rw [if_pos hg]
        cases hsm : s p with
        | some st => exact ih db hrest
        | none => rw [ih _ hrest, get_update_other hbot]
      · rw [if_neg hg]; exact ih db hrest

/-- Same for the websocket loop. -/
theorem wsReconcileList_find_other (s : Nat → Option ProcStats) (n : Nat) (tid : String) :
    ∀ (l : List Bot) (db : DB), (∀ x ∈ l, decide (x.id = tid) = false) →
      get_bot_by_id (wsReconcileList s n db l).1 tid = get_bot_by_id db tid := by
  intro l
  induction l with
  | nil => intro db _; rfl
  | cons bot rest ih =>
    intro db hl
    have hbot := hl bot (List.mem_cons_self bot rest)
    have hrest : ∀ x ∈ rest, decide (x.id = tid) = false := fun x hx =>
      hl x (List.mem_cons_of_mem bot hx)
    cases hp : bot.pid with
    | none => simp only [wsReconcileList, hp]; exact ih db hrest
    | some p =>
      simp only [wsReconcileList, hp]
      by_cases hg : p ≠ 0
      · rw [if_pos hg]
        cases hsm : s p with
        | some st => exact ih db hrest
        | none => rw [ih _ hrest, get_update_other hbot]
      · rw [if_neg hg]; exact ih db hrest

/-- The record `get_bot_by_id` returns carries the id it was looked up by. -/
theorem get_bot_by_id_id {db : DB} {tid : String} {b : Bot}
    (hf : get_bot_by_id db tid = some b) : b.id = tid := by
  have hf2 : db.bots.find? (fun x => decide (x.id = tid)) = some b := hf
  have h3 := List.find?_some hf2
  simp only [decide_eq_true_eq] at h3
  exact h3

/-- A status write keyed on the id of the record `find?` locates rewrites
exactly that record. -/
theorem get_update_self {db : DB} {tid : String} {b : Bot}
    (hf : get_bot_by_id db tid = some b) (n : Nat) (st : BotStatus) (pd : Option Nat) :
    get_bot_by_id (update_bot_status n db tid st pd) tid =
      some (applyStatusUpdate n st pd b) := by
  unfold get_bot_by_id
  rw [update_bot_status_bots]
  exact find?_updateFirst_self _ _ (idKey_applyStatusUpdate tid n st pd) hf

/-- Reconciliation step on the dead target record itself, followed by a tail
of unrelated records. -/
theorem reconcileList_find_split (s : Nat → Option ProcStats) (n : Nat) (tid : String)
    {p : Nat} {b : Bot} (hb : b.status = BotStatus.running) (hbp : b.pid = some p)
    (hp0 : p ≠ 0) (hsamp : s p = none) :
    ∀ (l₁ : List Bot) (l₂ : List Bot) (db : DB),
      (∀ x ∈ l₁, decide (x.id = tid) = false) →
      (∀ x ∈ l₂, decide (x.id = tid) = false) →
      get_bot_by_id db tid = some b →
      get_bot_by_id (reconcileList s n db (l₁ ++ b :: l₂)).1 tid =
        some (applyStatusUpdate n BotStatus.stopped none b) := by
  intro l₁
  induction l₁ with
  | nil =>
    intro l₂ db _ hl₂ hf
    have hbid : b.id = tid := get_bot_by_id_id hf
    simp only [List.nil_append, reconcileList, hbp]
    rw [if_pos ⟨hb, hp0⟩, hsamp]
    simp only
    rw [reconcileList_find_other s n tid l₂ _ hl₂, hbid, get_update_self hf]
  | cons a l₁ ih =>
    intro l₂ db hl₁ hl₂ hf
    have ha := hl₁ a (List.mem_cons_self a l₁)
    have hl₁r : ∀ x ∈ l₁, decide (x.id = tid) = false := fun x hx =>
      hl₁ x (List.mem_cons_of_mem a hx)
    cases hp : a.pid with
    | none =>
      simp only [List.cons_append, reconcileList, hp]
      exact ih l₂ db hl₁r hl₂ hf
    | some q =>
      simp only [List.cons_append, reconcileList, hp]
      by_cases hg : a.status = BotStatus.running ∧ q ≠ 0
      · rw [if_pos hg]
        cases hsm : s q with
        | some st => exact ih l₂ db hl₁r hl₂ hf
        | none =>
          simp only
          refine ih l₂ _ hl₁r hl₂ ?_
          rw [get_update_other ha, hf]
      · rw [if_neg hg]
        exact ih l₂ db hl₁r hl₂ hf

/-- Same for the websocket loop (its guard does not re-check the status). -/
theorem wsReconcileList_find_split (s : Nat → Option ProcStats) (n : Nat) (tid : String)
    {p : Nat} {b : Bot} (hbp : b.pid = some p)
    (hp0 : p ≠ 0) (hsamp : s p = none) :
    ∀ (l₁ : List Bot) (l₂ : List Bot) (db : DB),
      (∀ x ∈ l₁, decide (x.id = tid) = false) →
      (∀ x ∈ l₂, decide (x.id = tid) = false) →
      get_bot_by_id db tid = some b →
      get_bot_by_id (wsReconcileList s n db (l₁ ++ b :: l₂)).1 tid =
        some (applyStatusUpdate n BotStatus.stopped none b) := by
  intro l₁
  induction l₁ with
  | nil =>
    intro l₂ db _ hl₂ hf
    have hbid : b.id = tid := get_bot_by_id_id hf
    simp only [List.nil_append, wsReconcileList, hbp]
    rw [if_pos hp0, hsamp]
    simp only
    rw [wsReconcileList_find_other s n tid l₂ _ hl₂, hbid, get_update_self hf]
  | cons a l₁ ih =>
    intro l₂ db hl₁ hl₂ hf
    have ha := hl₁ a (List.mem_cons_self a l₁)
    have hl₁r : ∀ x ∈ l₁, decide (x.id = tid) = false := fun x hx =>
      hl₁ x (List.mem_cons_of_mem a hx)
    cases hp : a.pid with
    | none =>
      simp only [List.cons_append, wsReconcileList, hp]
      exact ih l₂ db hl₁r hl₂ hf
    | some q =>
      simp only [List.cons_append, wsReconcileList, hp]
      by_cases hg : q ≠ 0
      · rw [if_pos hg]
        cases hsm : s q with
        | some st => exact ih l₂ db hl₁r hl₂ hf
        | none =>
          simp only
          refine ih l₂ _ hl₁r hl₂ ?_
          rw [get_update_other ha, hf]
      · rw [if_neg hg]
        exact ih l₂ db hl₁r hl₂ hf

/-- With distinct ids, a member whose id is `tid` is exactly what `find?`
locates. -/
theorem find?_eq_of_mem_nodup :
    ∀ {l : List Bot} {b : Bot} {tid : String}, (l.map Bot.id).Nodup → b ∈ l →
      b.id = tid → l.find? (fun x => decide (x.id = tid)) = some b := by
  intro l
  induction l with
  | nil => intro b tid _ hm; cases hm
  | cons x xs ih =>
    intro b tid hn hm hid
    have hn2 := hn
    rw [List.map_cons, List.nodup_cons] at hn2
    by_cases hx : x.id = tid
    · have hxb : x = b := by
        rcases List.mem_cons.mp hm with h | h
        · exact h.symm
        · exfalso
          apply hn2.1
          rw [hx, ← hid]
          exact List.mem_map_of_mem Bot.id h
      rw [List.find?]
      rw [decide_eq_true hx]
      rw [hxb]
    · have hbx : b ∈ xs := by
        rcases List.mem_cons.mp hm with h | h
        · exact absurd (h ▸ hid) hx
        · exact h
      rw [List.find?]
      rw [decide_eq_false hx]
      exact ih hn2.2 hbx hid

/-- From distinct ids, everything right of the located record has a
different id. -/
theorem right_ids_ne {l₁ l₂ : List Bot} {b : Bot} {tid : String}
    (hn : ((l₁ ++ b :: l₂).map Bot.id).Nodup) (hid : b.id = tid) :
    ∀ x ∈ l₂, decide (x.id = tid) = false := by
  intro x hx
  have hr : (b.id :: l₂.map Bot.id).Nodup := by
    rw [List.map_append, List.map_cons] at hn
    exact hn.of_append_right
  have hnot : b.id ∉ l₂.map Bot.id := (List.nodup_cons.mp hr).1
  have : x.id ≠ tid := by
    intro hxe
    apply hnot
    rw [hid, ← hxe]
    exact List.mem_map_of_mem Bot.id hx
  exact decide_eq_false this

/-! ## Python-dict merge lemmas (the start_bot environment build) -/

/-- Assignment makes the key read back the assigned value. -/
theorem envLookup_dictInsert_self (k v : String) :
    ∀ d, envLookup k (dictInsert k v d) = some v := by
  intro d
  induction d with
  | nil => simp [dictInsert, envLookup]
  | cons kv rest ih =>
    rcases kv with ⟨k2, v2⟩
    by_cases hk : k2 = k
    · simp [dictInsert, hk, envLookup]
    · simp only [dictInsert, if_neg hk, envLookup, if_neg hk]
      exact ih

/-- Assignment leaves other keys unchanged. -/
theorem envLookup_dictInsert_other {q k : String} (h : k ≠ q) (v : String) :
    ∀ d, envLookup q (dictInsert k v d) = envLookup q d := by
  intro d
  induction d with
  | nil => simp [dictInsert, envLookup, h]
  | cons kv rest ih =>
    rcases kv with ⟨k2, v2⟩
    by_cases hk : k2 = k
    · subst hk
      simp [dictInsert, envLookup, h]
    · simp only [dictInsert, if_neg hk, envLookup]
      by_cases hq : k2 = q
      · rw [if_pos hq, if_pos hq]
      · rw [if_neg hq, if_neg hq]
        exact ih

/-- A key absent from a dict reads back nothing. -/
theorem envLookup_none_of_no_key (k : String) :
    ∀ d : List (String × String), (∀ kv ∈ d, kv.1 ≠ k) → envLookup k d = none := by
  intro d
  induction d with
  | nil => intro _; rfl
  | cons kv rest ih =>
    rcases kv with ⟨k2, v2⟩
    intro hd
    have hk2 : k2 ≠ k := hd (k2, v2) (List.mem_cons_self _ _)
    simp only [envLookup]
    rw [if_neg hk2]
    exact ih (fun p hp => hd p (List.mem_cons_of_mem _ hp))

/-- `base.update(upd)` with the distinct keys of a Python dict: a key reads
back its `upd` binding when present, its `base` binding otherwise. -/
theorem dictUpdate_lookup :
    ∀ (upd : List (String × String)), (upd.map Prod.fst).Nodup →
      ∀ (base : List (String × String)) (k : String),
        envLookup k (dictUpdate base upd) =
          (envLookup k upd).orElse (fun _ => envLookup k base) := by
  intro upd
  induction upd with
  | nil =>
    intro _ base k
    simp [dictUpdate, envLookup, Option.orElse]
  | cons kv rest ih =>
    rcases kv with ⟨k1, v1⟩
    intro hn base k
    have hn2 := hn
    rw [List.map_cons, List.nodup_cons] at hn2
    have hstep : dictUpdate base ((k1, v1) :: rest) =
        dictUpdate (dictInsert k1 v1 base) rest := rfl
    rw [hstep, ih hn2.2]
    by_cases hk : k1 = k
    · subst hk
      have hrest : envLookup k1 rest = none := by
        refine envLookup_none_of_no_key k1 rest ?_
        intro p hp hpe
        have hmem : p.1 ∈ rest.map Prod.fst := List.mem_map_of_mem Prod.fst hp
        rw [hpe] at hmem
        exact hn2.1 hmem
      rw [hrest, envLookup_dictInsert_self]
      simp only [envLookup, if_pos rfl]
      rfl
    · rw [envLookup_dictInsert_other hk]
      simp only [envLookup]
      rw [if_neg hk]

/-! ## Delete-endpoint lemmas -/

/-- With distinct ids, nothing matching the key survives `delete_one`. -/
theorem removeFirst_no_match {tid : String} :
    ∀ {l : List Bot}, (l.map Bot.id).Nodup →
      ∀ x ∈ removeFirstIf (fun b => decide (b.id = tid)) l,
        decide (x.id = tid) = false := by
  intro l
  induction l with
  | nil => intro _ x hx; cases hx
  | cons h t ih =>
    intro hn x hx
    have hn2 := hn
    rw [List.map_cons, List.nodup_cons] at hn2
    by_cases hh : h.id = tid
    · rw [removeFirstIf, if_pos (decide_eq_true hh)] at hx
      refine decide_eq_false ?_
      intro hxe
      apply hn2.1
      rw [hh, ← hxe]
      exact List.mem_map_of_mem Bot.id hx
    · rw [removeFirstIf, if_neg (by simp [hh])] at hx
      rcases List.mem_cons.mp hx with hx | hx
      · exact hx ▸ decide_eq_false hh
      · exact ih hn2.2 x hx

/-- Filtering with `p` after keeping only the elements failing `p` leaves
nothing. -/
theorem filter_not_filter {α : Type} (p : α → Bool) :
    ∀ l : List α, (l.filter (fun e => !(p e))).filter p = [] := by
  intro l
  induction l with
  | nil => rfl
  | cons x xs ih =>
    by_cases hx : p x
    · simp [List.filter, hx, ih]
    · simp [List.filter, hx, ih]

/-! ## Broadcast-loop lemmas -/

/-- `pyRemove` only drops elements. -/
theorem pyRemove_subset [DecidableEq α] (a : α) : ∀ l : List α, pyRemove a l ⊆ l := by
  intro l
  induction l with
  | nil => exact fun _ h => h
  | cons x xs ih =>
    by_cases hx : x = a
    · rw [pyRemove, if_pos hx]
      exact fun z hz => List.mem_cons_of_mem x hz
    · rw [pyRemove, if_neg hx]
      intro z hz
      rcases List.mem_cons.mp hz with hz | hz
      · exact hz ▸ List.mem_cons_self x xs
      · exact List.mem_cons_of_mem x (ih hz)

/-- `pyRemove` keeps distinctness. -/
theorem pyRemove_nodup [DecidableEq α] (a : α) :
    ∀ {l : List α}, l.Nodup → (pyRemove a l).Nodup := by
  intro l
  induction l with
  | nil => intro h; exact h
  | cons x xs ih =>
    intro h
    rw [List.nodup_cons] at h
    by_cases hx : x = a
    · rw [pyRemove, if_pos hx]; exact h.2
    · rw [pyRemove, if_neg hx]
      rw [List.nodup_cons]
      exact ⟨fun hm => h.1 (pyRemove_subset a xs hm), ih h.2⟩

/-- On a distinct list, `pyRemove` erases every trace of the element. -/
theorem not_mem_pyRemove [DecidableEq α] (a : α) :
    ∀ {l : List α}, l.Nodup → a ∉ pyRemove a l := by
  intro l
  induction l with
  | nil => intro _ h; cases h
  | cons x xs ih =>
    intro h
    rw [List.nodup_cons] at h
    by_cases hx : x = a
    · rw [pyRemove, if_pos hx]
      intro hm
      exact h.1 (hx ▸ hm)
    · rw [pyRemove, if_neg hx]
      intro hm
      rcases List.mem_cons.mp hm with hm | hm
      · exact hx hm.symm
      · exact ih h.2 hm

/-- The element at an index is in the suffix from that index. -/
theorem get_mem_drop : ∀ (l : List α) (i : Nat) (h : i < l.length),
    l.get ⟨i, h⟩ ∈ l.drop i := by
  intro l
  induction l with
  | nil => intro i h; simp at h
  | cons x xs ih =>
    intro i h
    cases i with
    | zero => simp
    | succ j =>
      simp only [List.get, List.drop]
      exact ih j (by simpa using h)

/-- Suffixes shrink as the index grows. -/
theorem drop_succ_subset : ∀ (l : List α) (i : Nat), l.drop (i + 1) ⊆ l.drop i := by
  intro l
  induction l with
  | nil => intro i z hz; simp at hz
  | cons x xs ih =>
    intro i
    cases i with
    | zero =>
      intro z hz
      simp only [List.drop] at hz
      exact List.mem_cons_of_mem x hz
    | succ j =>
      intro z hz
      simp only [List.drop] at hz ⊢
      exact ih j hz

/-- Removing the element at index `i` of a distinct list aligns the suffix
past `i` with the original suffix past `i + 1`. -/
theorem pyRemove_get_drop [DecidableEq α] :
    ∀ (l : List α) (i : Nat) (h : i < l.length), l.Nodup →
      (pyRemove (l.get ⟨i, h⟩) l).drop (i + 1) = l.drop (i + 2) := by
  intro l
  induction l with
  | nil => intro i h; simp at h
  | cons x xs ih =>
    intro i h hn
    rw [List.nodup_cons] at hn
    cases i with
    | zero =>
      simp only [List.get]
      rw [pyRemove, if_pos rfl]
      rfl
    | succ j =>
      have hj : j < xs.length := by simpa using h
      have hget : (x :: xs).get ⟨j + 1, h⟩ = xs.get ⟨j, hj⟩ := rfl
      rw [hget]
      have hxne : x ≠ xs.get ⟨j, hj⟩ := by
        intro he
        exact hn.1 (he ▸ List.get_mem xs j hj)
      rw [pyRemove, if_neg hxne]
      show (pyRemove (xs.get ⟨j, hj⟩) xs).drop (j + 1) = xs.drop (j + 2)
      exact ih j hj hn.2

/-- Removal of an element absent from a front segment happens in the back
segment. -/
theorem pyRemove_append_right [DecidableEq α] {a : α} :
    ∀ {pre : List α}, a ∉ pre → ∀ L, pyRemove a (pre ++ L) = pre ++ pyRemove a L := by
  intro pre
  induction pre with
  | nil => intro _ L; rfl
  | cons x xs ih =>
    intro hna L
    have hxa : x ≠ a := fun he => hna (he ▸ List.mem_cons_self x xs)
    rw [List.cons_append, pyRemove, if_neg hxa,
      ih (fun hm => hna (List.mem_cons_of_mem x hm)) L]
    rfl

/-- Indexing past a front segment indexes the back segment. -/
theorem get_append_off (pre L : List α) (j : Nat) (h : j < L.length)
    (h2 : pre.length + j < (pre ++ L).length) :
    (pre ++ L).get ⟨pre.length + j, h2⟩ = L.get ⟨j, h⟩ := by
  rw [List.get_eq_getElem, List.get_eq_getElem]
  rw [List.getElem_append_right (by omega : pre.length ≤ pre.length + j)]
  simp only [Nat.add_sub_cancel_left]

/-- The loop with the iterator past the end returns the list unchanged with
no attempts, at any fuel. -/
theorem broadcastGo_stop [DecidableEq α] (send : α → Except Unit Unit)
    (fuel : Nat) (l : List α) (i : Nat) (h : ¬ i < l.length) :
    broadcastGo send fuel l i = Except.ok (l, []) := by
  cases fuel with
  | zero => rfl
  | succ f => simp only [broadcastGo]; rw [dif_neg h]

/-- Loop step on a successful send. -/
theorem broadcastGo_step_ok [DecidableEq α] (send : α → Except Unit Unit)
    (fuel : Nat) (l : List α) (i : Nat) (h : i < l.length)
    (hs : send (l.get ⟨i, h⟩) = Except.ok ()) :
    broadcastGo send (fuel + 1) l i =
      (match broadcastGo send fuel l (i + 1) with
       | Except.ok r => Except.ok (r.1, l.get ⟨i, h⟩ :: r.2)
       | Except.error e => Except.error e) := by
  simp only [broadcastGo]
  rw [dif_pos h, hs]

/-- Loop step on a failing send: the bare `except:` catches, removes the
connection, and iteration continues over the shifted list. -/
theorem broadcastGo_step_err [DecidableEq α] (send : α → Except Unit Unit)
    (fuel : Nat) (l : List α) (i : Nat) (h : i < l.length)
    (hs : send (l.get ⟨i, h⟩) = Except.error ()) :
    broadcastGo send (fuel + 1) l i =
      (match broadcastGo send fuel (pyRemove (l.get ⟨i, h⟩) l) (i + 1) with
       | Except.ok r => Except.ok (r.1, l.get ⟨i, h⟩ :: r.2)
       | Except.error e => Except.error e) := by
  simp only [broadcastGo]
  rw [dif_pos h, hs]

/-- Any fuel at least the number of remaining iterations computes the same
result: the counter is an artifact of the embedding, not of the loop. -/
theorem broadcastGo_fuel_irrelevant [DecidableEq α] (send : α → Except Unit Unit) :
    ∀ (f1 : Nat) (l : List α) (i : Nat) (f2 : Nat),
      l.length - i ≤ f1 → l.length - i ≤ f2 →
      broadcastGo send f1 l i = broadcastGo send f2 l i := by
  intro f1
  induction f1 with
  | zero =>
    intro l i f2 h1 _
    have hni : ¬ i < l.length := by omega
    rw [broadcastGo_stop send 0 l i hni, broadcastGo_stop send f2 l i hni]
  | succ f ih =>
    intro l i f2 h1 h2
    by_cases h : i < l.length
    · cases f2 with
      | zero => omega
      | succ g =>
        cases hs : send (l.get ⟨i, h⟩) with
        | ok u =>
          cases u
          rw [broadcastGo_step_ok send f l i h hs, broadcastGo_step_ok send g l i h hs,
            ih l (i + 1) g (by omega) (by omega)]
        | error e =>
          cases e
          have hlen := pyRemove_length_of_mem (List.get_mem l i h)
          rw [broadcastGo_step_err send f l i h hs, broadcastGo_step_err send g l i h hs,
            ih (pyRemove (l.get ⟨i, h⟩) l) (i + 1) g (by omega) (by omega)]
    · rw [broadcastGo_stop send _ l i h, broadcastGo_stop send f2 l i h]

/-- The loop always returns normally: per-listener failures never escape. -/
theorem broadcastGo_isOk [DecidableEq α] (send : α → Except Unit Unit) :
    ∀ (fuel : Nat) (l : List α) (i : Nat),
      ∃ r, broadcastGo send fuel l i = Except.ok r := by
  intro fuel
  induction fuel with
  | zero => intro l i; exact ⟨(l, []), rfl⟩
  | succ f ih =>
    intro l i
    by_cases h : i < l.length
    · cases hs : send (l.get ⟨i, h⟩) with
      | ok u =>
        cases u
        obtain ⟨r, hr⟩ := ih l (i + 1)
        rw [broadcastGo_step_ok send f l i h hs, hr]
        exact ⟨_, rfl⟩
      | error e =>
        cases e
        obtain ⟨r, hr⟩ := ih (pyRemove (l.get ⟨i, h⟩) l) (i + 1)
        rw [broadcastGo_step_err send f l i h hs, hr]
        exact ⟨_, rfl⟩
    · exact ⟨(l, []), broadcastGo_stop send _ l i h⟩

/-- The surviving connection list is drawn from the starting list. -/
theorem broadcastGo_fin_subset [DecidableEq α] (send : α → Except Unit Unit) :
    ∀ (fuel : Nat) (l : List α) (i : Nat) (fin att : List α),
      broadcastGo send fuel l i = Except.ok (fin, att) → fin ⊆ l := by
  intro fuel
  induction fuel with
  | zero =>
    intro l i fin att hr
    cases hr
    exact fun z hz => hz
  | succ f ih =>
    intro l i fin att hr
    by_cases h : i < l.length
    · cases hs : send (l.get ⟨i, h⟩) with
      | ok u =>
        cases u
        rw [broadcastGo_step_ok send f l i h hs] at hr
        rcases hrec : broadcastGo send f l (i + 1) with r | r
        · rw [hrec] at hr; cases hr
        · rw [hrec] at hr
          cases hr
          exact ih l (i + 1) r.1 r.2 hrec
      | error e =>
        cases e
        rw [broadcastGo_step_err send f l i h hs] at hr
        rcases hrec : broadcastGo send f (pyRemove (l.get ⟨i, h⟩) l) (i + 1) with r | r
        · rw [hrec] at hr; cases hr
        · rw [hrec] at hr
          cases hr
          exact fun z hz => pyRemove_subset _ l (ih _ (i + 1) r.1 r.2 hrec hz)
    · rw [broadcastGo_stop send _ l i h] at hr
      cases hr
      exact fun z hz => hz

/-- Every attempted connection lies in the suffix the iterator had left. -/
theorem broadcastGo_att_drop [DecidableEq α] (send : α → Except Unit Unit) :
    ∀ (fuel : Nat) (l : List α) (i : Nat) (fin att : List α), l.Nodup →
      broadcastGo send fuel l i = Except.ok (fin, att) →
      ∀ z ∈ att, z ∈ l.drop i := by
  intro fuel
  induction fuel with
  | zero =>
    intro l i fin att _ hr
    cases hr
    intro z hz
    cases hz
  | succ f ih =>
    intro l i fin att hn hr
    by_cases h : i < l.length
    · cases hs : send (l.get ⟨i, h⟩) with
      | ok u =>
        cases u
        rw [broadcastGo_step_ok send f l i h hs] at hr
        rcases hrec : broadcastGo send f l (i + 1) with r | r
        · rw [hrec] at hr; cases hr
        · rw [hrec] at hr
          cases hr
          intro z hz
          rcases List.mem_cons.mp hz with hz | hz
          · exact hz ▸ get_mem_drop l i h
          · exact drop_succ_subset l i (ih l (i + 1) r.1 r.2 hn hrec z hz)
      | error e =>
        cases e
        rw [broadcastGo_step_err send f l i h hs] at hr
        rcases hrec : broadcastGo send f (pyRemove (l.get ⟨i, h⟩) l) (i + 1) with r | r
        · rw [hrec] at hr; cases hr
        · rw [hrec] at hr
          cases hr
          intro z hz
          rcases List.mem_cons.mp hz with hz | hz
          · exact hz ▸ get_mem_drop l i h
          · have h1 : z ∈ (pyRemove (l.get ⟨i, h⟩) l).drop (i + 1) :=
              ih _ (i + 1) r.1 r.2 (pyRemove_nodup _ hn) hrec z hz
            rw [pyRemove_get_drop l i h hn] at h1
            exact drop_succ_subset l i (drop_succ_subset l (i + 1) h1)
    · rw [broadcastGo_stop send _ l i h] at hr
      cases hr
      intro z hz
      cases hz

/-- A connection whose send failed is gone from the surviving list. -/
theorem broadcastGo_failed_removed [DecidableEq α] (send : α → Except Unit Unit) :
    ∀ (fuel : Nat) (l : List α) (i : Nat) (fin att : List α), l.Nodup →
      broadcastGo send fuel l i = Except.ok (fin, att) →
      ∀ z ∈ att, send z = Except.error () → z ∉ fin := by
  intro fuel
  induction fuel with
  | zero =>
    intro l i fin att _ hr
    cases hr
    intro z hz
    cases hz
  | succ f ih =>
    intro l i fin att hn hr
    by_cases h : i < l.length
    · cases hs : send (l.get ⟨i, h⟩) with
      | ok u =>
        cases u
        rw [broadcastGo_step_ok send f l i h hs] at hr
        rcases hrec : broadcastGo send f l (i + 1) with r | r
        · rw [hrec] at hr; cases hr
        · rw [hrec] at hr
          cases hr
          intro z hz hzf
          rcases List.mem_cons.mp hz with hz | hz
          · rw [hz] at hzf
            rw [hs] at hzf
            cases hzf
          · exact ih l (i + 1) r.1 r.2 hn hrec z hz hzf
      | error e =>
        cases e
        rw [broadcastGo_step_err send f l i h hs] at hr
        rcases hrec : broadcastGo send f (pyRemove (l.get ⟨i, h⟩) l) (i + 1) with r | r
        · rw [hrec] at hr; cases hr
        · rw [hrec] at hr
          cases hr
          intro z hz hzf
          rcases List.mem_cons.mp hz with hz | hz
          · intro hzfin
            have hsub : r.1 ⊆ pyRemove (l.get ⟨i, h⟩) l :=
              broadcastGo_fin_subset send f _ (i + 1) r.1 r.2 hrec
            exact not_mem_pyRemove _ hn (hz ▸ hsub hzfin)
          · exact ih _ (i + 1) r.1 r.2 (pyRemove_nodup _ hn) hrec z hz hzf
    · rw [broadcastGo_stop send _ l i h] at hr
      cases hr
      intro z hz
      cases hz

/-- Running the loop past an untouched front segment is running it on the
back segment: the iterator never revisits the front, and removals of back
elements never hit the front. -/
theorem broadcastGo_shift [DecidableEq α] (send : α → Except Unit Unit) (pre : List α) :
    ∀ (fuel : Nat) (L : List α) (j : Nat), (∀ z ∈ L, z ∉ pre) →
      broadcastGo send fuel (pre ++ L) (pre.length + j) =
        (match broadcastGo send fuel L j with
         | Except.ok r => Except.ok (pre ++ r.1, r.2)
         | Except.error e => Except.error e) := by
  intro fuel
  induction fuel with
  | zero => intro L j _; rfl
  | succ f ih =>
    intro L j hd
    by_cases hj : j < L.length
    · have hj2 : pre.length + j < (pre ++ L).length := by
        rw [List.length_append]; omega
      have hget := get_append_off pre L j hj hj2
      cases hs : send (L.get ⟨j, hj⟩) with
      | ok u =>
        cases u
        rw [broadcastGo_step_ok send f (pre ++ L) (pre.length + j) hj2
          (by rw [hget]; exact hs)]
        rw [broadcastGo_step_ok send f L j hj hs]
        rw [hget]
        have harith : pre.length + j + 1 = pre.length + (j + 1) := by omega
        rw [harith, ih L (j + 1) hd]
        cases hrec : broadcastGo send f L (j + 1) <;> rfl
      | error e =>
        cases e
        have hmem : L.get ⟨j, hj⟩ ∈ L := List.get_mem L j hj
        have hnp : L.get ⟨j, hj⟩ ∉ pre := hd _ hmem
        rw [broadcastGo_step_err send f (pre ++ L) (pre.length + j) hj2
          (by rw [hget]; exact hs)]
        rw [broadcastGo_step_err send f L j hj hs]
        rw [hget, pyRemove_append_right hnp L]
        have harith : pre.length + j + 1 = pre.length + (j + 1) := by omega
        rw [harith, ih (pyRemove (L.get ⟨j, hj⟩) L) (j + 1)
          (fun z hz => hd z (pyRemove_subset _ L hz))]
        cases hrec : broadcastGo send f (pyRemove (L.get ⟨j, hj⟩) L) (j + 1) <;> rfl
    · have hj2 : ¬ pre.length + j < (pre ++ L).length := by
        rw [List.length_append]; omega
      rw [broadcastGo_stop send _ L j hj, broadcastGo_stop send _ _ _ hj2]

/-- When the connection at some position fails after a prefix of successes,
the connection right after it is never attempted in that pass: the removal
shifts the list under the iterator. -/
theorem broadcastGo_skip [DecidableEq α] (send : α → Except Unit Unit) :
    ∀ (l₁ : List α) (x y : α) (l₂ : List α) (fuel : Nat) (fin att : List α),
      (l₁ ++ x :: y :: l₂).Nodup → (∀ a ∈ l₁, send a = Except.ok ()) →
      send x = Except.error () →
      broadcastGo send fuel (l₁ ++ x :: y :: l₂) 0 = Except.ok (fin, att) →
      y ∉ att := by
  intro l₁
  induction l₁ with
  | nil =>
    intro x y l₂ fuel fin att hn hok hx hrun
    cases fuel with
    | zero =>
      cases hrun
      intro hmem
      cases hmem
    | succ f =>
      rw [List.nil_append] at hrun hn
      have h0 : 0 < (x :: y :: l₂).length := by simp
      have hget : (x :: y :: l₂).get ⟨0, h0⟩ = x := rfl
      rw [broadcastGo_step_err send f _ 0 h0 (by rw [hget]; exact hx)] at hrun
      rw [hget] at hrun
      have hrm : pyRemove x (x :: y :: l₂) = y :: l₂ := by rw [pyRemove, if_pos rfl]
      rw [hrm] at hrun
      rcases hrec : broadcastGo send f (y :: l₂) (0 + 1) with r | r
      · rw [hrec] at hrun; cases hrun
      · rw [hrec] at hrun
        cases hrun
        have hn2 := hn
        rw [List.nodup_cons] at hn2
        have hyx : y ≠ x := fun he => hn2.1 (he ▸ List.mem_cons_self y l₂)
        intro hmem
        rcases List.mem_cons.mp hmem with hm | hm
        · exact hyx hm
        · have hd : y ∈ (y :: l₂).drop (0 + 1) :=
            broadcastGo_att_drop send f (y :: l₂) (0 + 1) r.1 r.2 hn2.2 hrec y hm
          have hyl : y ∈ l₂ := hd
          have hn3 := hn2.2
          rw [List.nodup_cons] at hn3
          exact hn3.1 hyl
  | cons a l₁ ih =>
    intro x y l₂ fuel fin att hn hok hx hrun
    cases fuel with
    | zero =>
      cases hrun
      intro hmem
      cases hmem
    | succ f =>
      have hcons : (a :: l₁) ++ x :: y :: l₂ = a :: (l₁ ++ x :: y :: l₂) := rfl
      rw [hcons] at hrun hn
      have h0 : 0 < (a :: (l₁ ++ x :: y :: l₂)).length := by simp
      have hget : (a :: (l₁ ++ x :: y :: l₂)).get ⟨0, h0⟩ = a := rfl
      have hsa : send a = Except.ok () := hok a (List.mem_cons_self a l₁)
      rw [broadcastGo_step_ok send f _ 0 h0 (by rw [hget]; exact hsa)] at hrun
      rw [hget] at hrun
      have hn2 := hn
      rw [List.nodup_cons] at hn2
      have hshift :
          broadcastGo send f (a :: (l₁ ++ x :: y :: l₂)) (0 + 1) =
            (match broadcastGo send f (l₁ ++ x :: y :: l₂) 0 with
             | Except.ok r => Except.ok ([a] ++ r.1, r.2)
             | Except.error e => Except.error e) :=
        broadcastGo_shift send [a] f (l₁ ++ x :: y :: l₂) 0
          (fun z hz => by
            intro hzp
            rcases List.mem_cons.mp hzp with hzp | hzp
            · exact hn2.1 (hzp ▸ hz)
            · cases hzp)
      rw [hshift] at hrun
      rcases hrec : broadcastGo send f (l₁ ++ x :: y :: l₂) 0 with r | r
      · rw [hrec] at hrun; cases hrun
      · rw [hrec] at hrun
        cases hrun
        have hya : y ≠ a := by
          intro he
          apply hn2.1
          rw [← he]
          refine List.mem_append.mpr (Or.inr ?_)
          exact List.mem_cons_of_mem x (List.mem_cons_self y l₂)
        intro hmem
        rcases List.mem_cons.mp hmem with hm | hm
        · exact hya hm
        · exact ih x y l₂ f r.1 r.2 hn2.2
            (fun b hb => hok b (List.mem_cons_of_mem a hb)) hx hrec hm

/-! ## Claim theorems -/

def c1Bot : Bot :=
  { id := "b1"
    name := "alpha"
    bot_type := BotType.general
    command := "run.sh" }

/-- C1: for every bot record and every sequence of lifecycle operations
(start, stop, restart, status reconciliation) from a store satisfying the
pid/status linkage, the linkage still holds: a record's stored process
identifier is non-null iff its status is Running or Stopping, and in the
Starting, Error and Stopped states the identifier is null. -/
theorem c1_pid_status_invariant (db : DB) (ops : List LifeOp)
    (h : PidStatusInv db) :
    PidStatusInv (runOps db ops) ∧
      ∀ b ∈ (runOps db ops).bots,
        (b.status = BotStatus.starting ∨ b.status = BotStatus.error ∨
          b.status = BotStatus.stopped) → b.pid = none := by
  have hinv := runOps_pres ops db h
  refine ⟨hinv, ?_⟩
  intro b hb hst
  cases hp : b.pid with
  | none => rfl
  | some p =>
    have h2 := (hinv b hb).mp (by simp [hp])
    rcases hst with hst | hst | hst <;> rcases h2 with h2 | h2 <;> simp_all

/-- C1 witness: a freshly created record run through a start, stop, restart
and reconciliation pass keeps the linkage. -/
theorem c1_pid_status_invariant_witness :
    PidStatusInv (runOps { bots := [c1Bot], logs := [] }
      [LifeOp.lifeStart [] 5 1 "b1", LifeOp.lifeStop 2 "b1",
       LifeOp.lifeRestart [] 3 4 "b1", LifeOp.lifeReconcile (fun _ => none) 9]) :=
  (c1_pid_status_invariant { bots := [c1Bot], logs := [] }
    [LifeOp.lifeStart [] 5 1 "b1", LifeOp.lifeStop 2 "b1",
     LifeOp.lifeRestart [] 3 4 "b1", LifeOp.lifeReconcile (fun _ => none) 9]
    (by decide)).1

def c2Bot : Bot :=
  { id := "b1"
    name := "alpha"
    bot_type := BotType.general
    command := "run.sh"
    status := BotStatus.starting }

/-- C2 counterexample: a record whose status is STARTING is not rejected
with AlreadyRunning — `start_bot` runs it (the code only checks RUNNING). -/
theorem c2_counterexample :
    c2Bot.status = BotStatus.starting ∧
    (start_bot [] 0 0 { bots := [c2Bot], logs := [] } "b1").2 = Except.ok 1000 :=
  ⟨rfl, rfl⟩

/-- C2 (amended): for every bot identifier, start fails with NotFound when no
record exists, fails with AlreadyRunning exactly when the record's status is
Running, and in every other status — Stopped, Stopping, Error, and also
Starting — start proceeds and returns the simulated pid. -/
theorem c2_start_error_handling (osEnv : List (String × String)) (rand now : Nat)
    (db : DB) (bot_id : String) :
    (get_bot_by_id db bot_id = none →
      start_bot osEnv rand now db bot_id = (db, Except.error "Bot not found")) ∧
    (∀ b, get_bot_by_id db bot_id = some b → b.status = BotStatus.running →
      start_bot osEnv rand now db bot_id = (db, Except.error "Bot is already running")) ∧
    (∀ b, get_bot_by_id db bot_id = some b → b.status ≠ BotStatus.running →
      (start_bot osEnv rand now db bot_id).2 = Except.ok (1000 + rand % 9000)) := by
  refine ⟨?_, ?_, ?_⟩
  · intro h
    exact start_bot_notfound h osEnv rand now
  · intro b hf hs
    exact start_bot_already hf hs osEnv rand now
  · intro b hf hs
    rw [start_bot_ok hf hs osEnv rand now]

/-- C2 witness: the amended characterisation applied to a STARTING record. -/
theorem c2_start_error_handling_witness :
    (start_bot [] 7 3 { bots := [c2Bot], logs := [] } "b1").2 =
      Except.ok (1000 + 7 % 9000) :=
  (c2_start_error_handling [] 7 3 { bots := [c2Bot], logs := [] } "b1").2.2
    c2Bot rfl (by decide)

def c4Bot : Bot :=
  { id := "b1"
    name := "alpha"
    bot_type := BotType.general
    command := "run.sh"
    status := BotStatus.running
    pid := some 4321 }

/-- C4: for every bot whose status is Running, stop succeeds, and afterwards
the record's status is Stopped, its stored process identifier is cleared to
null, and its stop timestamp is recorded. -/
theorem c4_stop_success (now : Nat) (db : DB) (bot_id : String) (b : Bot)
    (hf : get_bot_by_id db bot_id = some b) (hs : b.status = BotStatus.running) :
    ∃ db2, stop_bot now db bot_id = (db2, Except.ok ()) ∧
      ∃ b2, get_bot_by_id db2 bot_id = some b2 ∧ b2.status = BotStatus.stopped ∧
        b2.pid = none ∧ b2.last_stopped = some now := by
  refine ⟨(stop_bot now db bot_id).1, ?_, ?_⟩
  · rw [stop_bot_ok hf hs now]
  · exact ⟨_, get_after_stop hf hs now, by simp [applyStatusUpdate]⟩

/-- C4 witness: stopping a concrete running record. -/
theorem c4_stop_success_witness :
    ∃ db2, stop_bot 9 { bots := [c4Bot], logs := [] } "b1" = (db2, Except.ok ()) ∧
      ∃ b2, get_bot_by_id db2 "b1" = some b2 ∧ b2.status = BotStatus.stopped ∧
        b2.pid = none ∧ b2.last_stopped = some 9 :=
  c4_stop_success 9 { bots := [c4Bot], logs := [] } "b1" c4Bot rfl rfl

def c5Bot : Bot :=
  { id := "b1"
    name := "alpha"
    bot_type := BotType.general
    command := "run.sh" }

/-- C5: restart composes stop then start; when stop fails because the bot is
not running, restart is exactly start on the unchanged store (same result,
same state); a NotFound stop failure is propagated with the store unchanged
and start is never attempted; and on a Running bot restart is stop followed
by start on the stopped store. -/
theorem c5_restart_composition (osEnv : List (String × String)) (rand now : Nat)
    (db : DB) (bot_id : String) :
    (get_bot_by_id db bot_id = none →
      restart_bot osEnv rand now db bot_id = (db, Except.error "Bot not found")) ∧
    (∀ b, get_bot_by_id db bot_id = some b → b.status ≠ BotStatus.running →
      restart_bot osEnv rand now db bot_id = start_bot osEnv rand now db bot_id) ∧
    (∀ b, get_bot_by_id db bot_id = some b → b.status = BotStatus.running →
      restart_bot osEnv rand now db bot_id =
        start_bot osEnv rand now (stop_bot now db bot_id).1 bot_id) := by
  refine ⟨?_, ?_, ?_⟩
  · intro h
    unfold restart_bot
    rw [stop_bot_notfound h now]
    have hc : strContains "Bot not found" "not running" = false := rfl
    simp [hc]
  · intro b hf hs
    unfold restart_bot
    rw [stop_bot_notrunning hf hs now]
    have hc : strContains "Bot is not running" "not running" = true := rfl
    simp [hc]
  · intro b hf hs
    have hok := stop_bot_ok hf hs now
    have hget := get_after_stop hf hs now
    have hsne : (applyStatusUpdate now BotStatus.stopped none
        (applyStatusUpdate now BotStatus.stopping none b)).status ≠
          BotStatus.running := by
      simp [applyStatusUpdate]
    have hstart := start_bot_ok hget hsne osEnv rand now
    unfold restart_bot
    rw [hok] at hstart ⊢
    dsimp only at hstart ⊢
    rw [hstart]

/-- C5 witness: restart on a concrete Stopped record equals start on it. -/
theorem c5_restart_composition_witness :
    restart_bot [] 3 7 { bots := [c5Bot], logs := [] } "b1" =
      start_bot [] 3 7 { bots := [c5Bot], logs := [] } "b1" :=
  (c5_restart_composition [] 3 7 { bots := [c5Bot], logs := [] } "b1").2.1
    c5Bot rfl (by decide)

def c7Bot : Bot :=
  { id := "b1"
    name := "alpha"
    bot_type := BotType.general
    command := "run.sh"
    last_started := some 3 }

/-- C7: stop on an existing bot whose status is not Running returns the
NotRunning error and leaves the store — every record and every log entry —
entirely unchanged. -/
theorem c7_stop_not_running (now : Nat) (db : DB) (bot_id : String) (b : Bot)
    (hf : get_bot_by_id db bot_id = some b) (hs : b.status ≠ BotStatus.running) :
    stop_bot now db bot_id = (db, Except.error "Bot is not running") ∧
    (stop_bot now db bot_id).1.bots = db.bots ∧
    (stop_bot now db bot_id).1.logs = db.logs := by
  have h := stop_bot_notrunning hf hs now
  exact ⟨h, by rw [h], by rw [h]⟩

/-- C7 witness: stop on a concrete Stopped record. -/
theorem c7_stop_not_running_witness :
    stop_bot 11 { bots := [c7Bot], logs := [] } "b1" =
      ({ bots := [c7Bot], logs := [] }, Except.error "Bot is not running") :=
  (c7_stop_not_running 11 { bots := [c7Bot], logs := [] } "b1" c7Bot rfl
    (by decide)).1

def c3BotA : Bot :=
  { id := "a"
    name := "a"
    bot_type := BotType.general
    command := "python one.py"
    working_directory := "/srv/one" }

def c3BotB : Bot :=
  { id := "b"
    name := "b"
    bot_type := BotType.webhook
    command := "node two.js --flag"
    working_directory := "/srv/two" }

def c3Bot : Bot :=
  { id := "b1"
    name := "alpha"
    bot_type := BotType.general
    command := "run.sh"
    environment_vars := [("A", "1"), ("B", "2")] }

/-- C3 counterexample: with the same random draw, two records with different
commands and working directories receive the same pid — the pid is produced
by the random source (`1000 + rand % 9000`), no OS process is spawned from
the record's command, and nothing is captured from one. -/
theorem c3_counterexample :
    c3BotA.command ≠ c3BotB.command ∧
    c3BotA.working_directory ≠ c3BotB.working_directory ∧
    (start_bot [] 7 0 { bots := [c3BotA], logs := [] } "a").2 = Except.ok 1007 ∧
    (start_bot [] 7 0 { bots := [c3BotB], logs := [] } "b").2 = Except.ok 1007 :=
  ⟨by decide, by decide, rfl, rfl⟩

/-- C3 (amended): on an existing bot that is not Running, start performs, in
order: the STARTING status write, the first info log, the environment merge
(process-inherited environment overridden by the record's variables — merged
and then unused, since no process is spawned), the RUNNING status write with
the simulated pid `1000 + rand % 9000`, and the second info log; afterwards
the record is Running with that pid and the start timestamp, and exactly the
two info log entries were appended. -/
theorem c3_start_success_path (osEnv : List (String × String)) (rand now : Nat)
    (db : DB) (bot_id : String) (b : Bot)
    (hf : get_bot_by_id db bot_id = some b) (hs : b.status ≠ BotStatus.running)
    (hkeys : (b.environment_vars.map Prod.fst).Nodup) :
    start_bot osEnv rand now db bot_id =
      (log_message now
        (update_bot_status now
          (log_message now (update_bot_status now db bot_id BotStatus.starting none)
            bot_id "INFO" (startingMsg b.name) "api")
          bot_id BotStatus.running (some (1000 + rand % 9000)))
        bot_id "INFO" (startedMsg b.name (1000 + rand % 9000)) "system",
       Except.ok (1000 + rand % 9000)) ∧
    (∀ k, envLookup k (dictUpdate osEnv b.environment_vars) =
      (envLookup k b.environment_vars).orElse (fun _ => envLookup k osEnv)) ∧
    (∃ b2, get_bot_by_id (start_bot osEnv rand now db bot_id).1 bot_id = some b2 ∧
      b2.status = BotStatus.running ∧ b2.pid = some (1000 + rand % 9000) ∧
      b2.last_started = some now) ∧
    (start_bot osEnv rand now db bot_id).1.logs =
      db.logs ++
        [{ bot_id := bot_id, timestamp := now, level := "INFO",
           message := startingMsg b.name, source := "api" },
         { bot_id := bot_id, timestamp := now, level := "INFO",
           message := startedMsg b.name (1000 + rand % 9000), source := "system" }] := by
  refine ⟨start_bot_ok hf hs osEnv rand now,
    fun k => dictUpdate_lookup b.environment_vars hkeys osEnv k, ?_, ?_⟩
  · refine ⟨_, get_after_start hf hs osEnv rand now, ?_, ?_, ?_⟩
    all_goals simp [applyStatusUpdate]
  · rw [start_bot_ok hf hs osEnv rand now]
    simp [log_message, update_bot_status]

/-- C3 witness: the amended success path on a concrete Stopped record. -/
theorem c3_start_success_path_witness :
    ∃ b2, get_bot_by_id (start_bot [("A", "0"), ("C", "9")] 7 3
        { bots := [c3Bot], logs := [] } "b1").1 "b1" = some b2 ∧
      b2.status = BotStatus.running ∧ b2.pid = some (1000 + 7 % 9000) ∧
      b2.last_started = some 3 :=
  (c3_start_success_path [("A", "0"), ("C", "9")] 7 3
    { bots := [c3Bot], logs := [] } "b1" c3Bot rfl (by decide) (by decide)).2.2.1

def c6Bot : Bot :=
  { id := "b1"
    name := "n"
    bot_type := BotType.general
    command := "c"
    status := BotStatus.running
    pid := some 1234 }

/-- C6 counterexample: a Running record whose process sample returns nothing
is transitioned to Stopped by the `get_bots` pass, but the log store stays
empty — no warning log "process exited unexpectedly" (nor any other entry)
is written. -/
theorem c6_counterexample :
    (get_bot_by_id (get_bots (fun _ => none) 5 { bots := [c6Bot], logs := [] }).1
        "b1").map Bot.status = some BotStatus.stopped ∧
    (get_bots (fun _ => none) 5 { bots := [c6Bot], logs := [] }).1.logs = [] :=
  ⟨rfl, rfl⟩

/-- C6 (amended): for a Running record with a truthy pid whose sample comes
back empty, the next reconciliation pass — the `get_bots` one over at most
1000 records, and the websocket one over at most 100 running records — sets
the record's status to Stopped and clears its pid (the STOPPED write also
records the stop timestamp), and writes no log entry at all: the log store
is unchanged, so in particular no "process exited unexpectedly" warning is
emitted. -/
theorem c6_reconcile_dead_process (s : Nat → Option ProcStats) (now : Nat)
    (db : DB) (tid : String) (b : Bot) (p : Nat)
    (hf : get_bot_by_id db tid = some b) (hb : b.status = BotStatus.running)
    (hbp : b.pid = some p) (hp0 : p ≠ 0) (hsamp : s p = none)
    (hn : (db.bots.map Bot.id).Nodup) :
    (db.bots.length ≤ 1000 →
      get_bot_by_id (get_bots s now db).1 tid =
        some (applyStatusUpdate now BotStatus.stopped none b) ∧
      (get_bots s now db).1.logs = db.logs) ∧
    (db.bots.length ≤ 100 →
      get_bot_by_id (ws_tick s now db).1 tid =
        some (applyStatusUpdate now BotStatus.stopped none b) ∧
      (ws_tick s now db).1.logs = db.logs) ∧
    (applyStatusUpdate now BotStatus.stopped none b).status = BotStatus.stopped ∧
    (applyStatusUpdate now BotStatus.stopped none b).pid = none := by
  have hbid : b.id = tid := get_bot_by_id_id hf
  refine ⟨?_, ?_, by simp [applyStatusUpdate], by simp [applyStatusUpdate]⟩
  · intro hlen
    have hf2 : db.bots.find? (fun x => decide (x.id = tid)) = some b := hf
    rcases find?_decomp hf2 with ⟨l₁, l₂, hdec, hl₁⟩
    have hl₂ : ∀ x ∈ l₂, decide (x.id = tid) = false := by
      rw [hdec] at hn
      exact right_ids_ne hn hbid
    have htake : db.bots.take 1000 = db.bots := take_of_le db.bots 1000 hlen
    constructor
    · show get_bot_by_id (reconcileList s now db (db.bots.take 1000)).1 tid = _
      rw [htake, hdec]
      exact reconcileList_find_split s now tid hb hbp hp0 hsamp l₁ l₂ db hl₁ hl₂ hf
    · show (reconcileList s now db (db.bots.take 1000)).1.logs = db.logs
      exact reconcileList_logs s now _ db
  · intro hlen
    have hmem : b ∈ db.bots := List.mem_of_find?_eq_some hf
    have hmf : b ∈ db.bots.filter (fun x => decide (x.status = BotStatus.running)) :=
      List.mem_filter.mpr ⟨hmem, decide_eq_true hb⟩
    have hsubn : ((db.bots.filter
        (fun x => decide (x.status = BotStatus.running))).map Bot.id).Nodup :=
      ((db.bots.filter_sublist).map Bot.id).nodup hn
    have hff : (db.bots.filter (fun x => decide (x.status = BotStatus.running))).find?
        (fun x => decide (x.id = tid)) = some b :=
      find?_eq_of_mem_nodup hsubn hmf hbid
    rcases find?_decomp hff with ⟨l₁, l₂, hdec, hl₁⟩
    have hl₂ : ∀ x ∈ l₂, decide (x.id = tid) = false := by
      rw [hdec] at hsubn
      exact right_ids_ne hsubn hbid
    have hlenf : (db.bots.filter
        (fun x => decide (x.status = BotStatus.running))).length ≤ 100 :=
      le_trans (List.length_filter_le _ _) hlen
    have htake : (db.bots.filter (fun x => decide (x.status = BotStatus.running))).take 100 =
        db.bots.filter (fun x => decide (x.status = BotStatus.running)) :=
      take_of_le _ 100 hlenf
    constructor
    · show get_bot_by_id (wsReconcileList s now db ((db.bots.filter
        (fun x => decide (x.status = BotStatus.running))).take 100)).1 tid = _
      rw [htake, hdec]
      exact wsReconcileList_find_split s now tid hbp hp0 hsamp l₁ l₂ db hl₁ hl₂ hf
    · show (wsReconcileList s now db ((db.bots.filter
        (fun x => decide (x.status = BotStatus.running))).take 100)).1.logs = db.logs
      exact wsReconcileList_logs s now _ db

/-- C6 witness: both passes on a concrete store with one dead Running
record. -/
theorem c6_reconcile_dead_process_witness :
    get_bot_by_id (get_bots (fun _ => none) 5 { bots := [c6Bot], logs := [] }).1 "b1" =
      some (applyStatusUpdate 5 BotStatus.stopped none c6Bot) ∧
    (get_bots (fun _ => none) 5 { bots := [c6Bot], logs := [] }).1.logs = [] :=
  (c6_reconcile_dead_process (fun _ => none) 5 { bots := [c6Bot], logs := [] }
    "b1" c6Bot 1234 rfl rfl rfl (by decide) rfl (by decide)).1 (by decide)

/-- With distinct ids, nothing matching the key survives `delete_one`, so the
lookup comes back empty. -/
theorem delete_find_none {l : List Bot} {bot_id : String}
    (hn : (l.map Bot.id).Nodup) :
    (removeFirstIf (fun x => decide (x.id = bot_id)) l).find?
      (fun x => decide (x.id = bot_id)) = none := by
  apply List.find?_eq_none.mpr
  intro x hx
  have h := removeFirst_no_match hn x hx
  simp only [h]
  exact Bool.false_ne_true

/-- Deleting every entry for an id and then appending one entry for it
leaves exactly that entry under the id filter. -/
theorem delete_filter_one (logs : List LogEntry) (bot_id : String) (e : LogEntry)
    (he : e.bot_id = bot_id) :
    ((logs.filter (fun x => !(decide (x.bot_id = bot_id)))) ++ [e]).filter
      (fun x => decide (x.bot_id = bot_id)) = [e] := by
  rw [List.filter_append, filter_not_filter]
  simp [List.filter, he]

/-- `stop_bot` never changes the set of record ids. -/
theorem stop_bot_ids (now : Nat) (db : DB) (bot_id : String) :
    (stop_bot now db bot_id).1.bots.map Bot.id = db.bots.map Bot.id := by
  cases hf : get_bot_by_id db bot_id with
  | none => rw [stop_bot_notfound hf now]
  | some b =>
    by_cases hs : b.status = BotStatus.running
    · rw [stop_bot_ok hf hs now]
      show ((update_bot_status now _ bot_id BotStatus.stopped none).bots.map Bot.id) = _
      rw [update_bot_status_bots,
        map_updateFirst Bot.id _ _ (applyStatusUpdate_id now BotStatus.stopped none),
        log_message_bots, update_bot_status_bots,
        map_updateFirst Bot.id _ _ (applyStatusUpdate_id now BotStatus.stopping none)]
    · rw [stop_bot_notrunning hf hs now]

def c10Bot : Bot :=
  { id := "b1"
    name := "alpha"
    bot_type := BotType.general
    command := "run.sh"
    status := BotStatus.running
    pid := some 4321 }

def c10Log : LogEntry :=
  { bot_id := "b1"
    timestamp := 1
    level := "INFO"
    message := "Bot created"
    source := "api" }

/-- C10: for every existing bot (with the store's ids distinct), delete
succeeds, the record is gone, and — every previously stored log entry for
the id having been deleted before the single deletion entry was inserted —
exactly one log entry referencing the deleted identifier remains. -/
theorem c10_delete_logs (now : Nat) (db : DB) (bot_id : String) (b : Bot)
    (hf : get_bot_by_id db bot_id = some b)
    (hn : (db.bots.map Bot.id).Nodup) :
    ∃ db2, delete_bot now db bot_id = (db2, Except.ok "Bot deleted successfully") ∧
      get_bot_by_id db2 bot_id = none ∧
      db2.logs.filter (fun e => decide (e.bot_id = bot_id)) =
        [{ bot_id := bot_id, timestamp := now, level := "INFO",
           message := deletedMsg b.name, source := "api" }] := by
  unfold delete_bot
  rw [hf]
  dsimp only
  by_cases hs : b.status = BotStatus.running
  · rw [if_pos hs]
    have hok := stop_bot_ok hf hs now
    have hids := stop_bot_ids now db bot_id
    rcases hsb : stop_bot now db bot_id with ⟨db1, res⟩
    rw [hsb] at hok hids
    have hres : res = Except.ok () := (Prod.mk.injEq _ _ _ _ ▸ hok).2
    subst hres
    dsimp only
    refine ⟨_, rfl, ?_, ?_⟩
    · exact delete_find_none (by rw [show db1.bots.map Bot.id = db.bots.map Bot.id from hids]; exact hn)
    · exact delete_filter_one db1.logs bot_id _ rfl
  · rw [if_neg hs]
    dsimp only
    refine ⟨_, rfl, ?_, ?_⟩
    · exact delete_find_none hn
    · exact delete_filter_one db.logs bot_id _ rfl

/-- C10 witness: deleting a concrete Running record with one stored log. -/
theorem c10_delete_logs_witness :
    ∃ db2, delete_bot 6 { bots := [c10Bot], logs := [c10Log] } "b1" =
        (db2, Except.ok "Bot deleted successfully") ∧
      get_bot_by_id db2 "b1" = none ∧
      db2.logs.filter (fun e => decide (e.bot_id = "b1")) =
        [{ bot_id := "b1", timestamp := 6, level := "INFO",
           message := deletedMsg c10Bot.name, source := "api" }] :=
  c10_delete_logs 6 { bots := [c10Bot], logs := [c10Log] } "b1" c10Bot rfl (by decide)

/-- An element distinct from the removed one survives `pyRemove`. -/
theorem mem_pyRemove_of_ne [DecidableEq α] {z a : α} :
    ∀ {l : List α}, z ∈ l → z ≠ a → z ∈ pyRemove a l := by
  intro l
  induction l with
  | nil => intro h; cases h
  | cons h t ih =>
    intro hm hne
    by_cases hh : h = a
    · rw [pyRemove, if_pos hh]
      rcases List.mem_cons.mp hm with hm | hm
      · exact absurd (hm.trans hh) hne
      · exact hm
    · rw [pyRemove, if_neg hh]
      rcases List.mem_cons.mp hm with hm | hm
      · exact hm ▸ List.mem_cons_self h (pyRemove a t)
      · exact List.mem_cons_of_mem h (ih hm hne)

/-- A connection never attempted is still in the final fan-out list. -/
theorem broadcastGo_survives [DecidableEq α] (send : α → Except Unit Unit) :
    ∀ (fuel : Nat) (l : List α) (i : Nat) (fin att : List α),
      broadcastGo send fuel l i = Except.ok (fin, att) →
      ∀ z ∈ l, z ∉ att → z ∈ fin := by
  intro fuel
  induction fuel with
  | zero =>
    intro l i fin att hr
    cases hr
    intro z hz _
    exact hz
  | succ f ih =>
    intro l i fin att hr
    by_cases h : i < l.length
    · cases hs : send (l.get ⟨i, h⟩) with
      | ok u =>
        cases u
        rw [broadcastGo_step_ok send f l i h hs] at hr
        rcases hrec : broadcastGo send f l (i + 1) with r | r
        · rw [hrec] at hr; cases hr
        · rw [hrec] at hr
          cases hr
          intro z hz hna
          exact ih l (i + 1) r.1 r.2 hrec z hz
            (fun hm => hna (List.mem_cons_of_mem _ hm))
      | error e =>
        cases e
        rw [broadcastGo_step_err send f l i h hs] at hr
        rcases hrec : broadcastGo send f (pyRemove (l.get ⟨i, h⟩) l) (i + 1) with r | r
        · rw [hrec] at hr; cases hr
        · rw [hrec] at hr
          cases hr
          intro z hz hna
          have hne : z ≠ l.get ⟨i, h⟩ :=
            fun he => hna (he ▸ List.mem_cons_self _ r.2)
          exact ih _ (i + 1) r.1 r.2 hrec z (mem_pyRemove_of_ne hz hne)
            (fun hm => hna (List.mem_cons_of_mem _ hm))
    · rw [broadcastGo_stop send _ l i h] at hr
      cases hr
      intro z hz _
      exact hz

/-- C8: a broadcast over the connection list always returns normally — a
failure to deliver to an individual listener never raises out of
`broadcast`, so the originating lifecycle or log operation cannot fail
because of it — and (connections being distinct objects) every listener
whose send failed during the pass has been removed from the fan-out list. -/
theorem c8_broadcast_swallows_failures {α : Type} [DecidableEq α]
    (send : α → Except Unit Unit) (l : List α) :
    (∃ r, broadcast send l = Except.ok r) ∧
    (l.Nodup → ∀ fin att, broadcast send l = Except.ok (fin, att) →
      ∀ z ∈ att, send z = Except.error () → z ∉ fin) := by
  constructor
  · exact broadcastGo_isOk send l.length l 0
  · intro hn fin att hr
    exact broadcastGo_failed_removed send l.length l 0 fin att hn hr

/-- C8 witness: connection 1 of the list [1, 2] fails and is removed from the
surviving fan-out list [2]. -/
theorem c8_broadcast_swallows_failures_witness : (1 : Nat) ∉ ([2] : List Nat) :=
  (c8_broadcast_swallows_failures
      (fun x => if x = 1 then Except.error () else Except.ok ()) [1, 2]).2
    (by decide) [2] [1] (by rfl) 1 (by decide) rfl

/-- C9: over a connection list with at least two entries, when the
connection at some position fails (the connections before it having been
delivered to), the connection originally at the next position is skipped: it
is never attempted during that pass, yet it survives in the final fan-out
list — so not every surviving listener is guaranteed delivery. -/
theorem c9_broadcast_skips_successor {α : Type} [DecidableEq α]
    (send : α → Except Unit Unit) (l₁ : List α) (x y : α) (l₂ : List α)
    (fin att : List α)
    (hn : (l₁ ++ x :: y :: l₂).Nodup)
    (hok : ∀ a ∈ l₁, send a = Except.ok ())
    (hx : send x = Except.error ())
    (hrun : broadcast send (l₁ ++ x :: y :: l₂) = Except.ok (fin, att)) :
    y ∉ att ∧ y ∈ fin := by
  have hskip : y ∉ att :=
    broadcastGo_skip send l₁ x y l₂ (l₁ ++ x :: y :: l₂).length fin att hn hok hx hrun
  refine ⟨hskip, ?_⟩
  have hymem : y ∈ l₁ ++ x :: y :: l₂ :=
    List.mem_append.mpr (Or.inr (List.mem_cons_of_mem x (List.mem_cons_self y l₂)))
  exact broadcastGo_survives send (l₁ ++ x :: y :: l₂).length _ 0 fin att hrun y hymem hskip

/-- C9 witness: in the pass over [1, 2] where connection 1 fails, connection
2 is skipped (not attempted) yet survives. -/
theorem c9_broadcast_skips_successor_witness :
    (2 : Nat) ∉ ([1] : List Nat) ∧ (2 : Nat) ∈ ([2] : List Nat) :=
  c9_broadcast_skips_successor
    (fun x => if x = 1 then Except.error () else Except.ok ()) [] 1 2 [] [2] [1]
    (by decide) (fun a ha => absurd ha (List.not_mem_nil a)) rfl (by rfl)

end BotHosting
